import Mathlib

/-
Verification development for the riposte vector-language runtime.

The definitions below are shallow embeddings of the C++ sources:
  - interpreter.cpp      (bytecode interpreter: operand fetch, forceReg, ret, jc,
                          the JIT trigger, Thread::eval)
  - trace_interpret.cpp  (tile interpreter: instruction selection output model and
                          the reverse register-allocation pass with the
                          widening-cast anti-aliasing rule)
  - the JIT recording/scheduling translation unit (Shape, MergeShapes,
    SpecializeLength/SpecializeValue, the fusion-group scheduler)

Machine integers are modelled as Int/Nat (lengths are sizes; the Integer NA
sentinel INT64_MIN is kept explicitly).  Fallible code returns Option or an
explicit error constructor.  Where a helper lives in a header that is not part
of the sources (Value::isConcrete, Shape::operator==, buildStackFrame,
Environment::getRecursive, makeConstant, BeginTracing), the definition carries a
doc comment starting with "Modelled from the spec:".
-/

namespace Riposte

/-- Element types of runtime values (type.h enum, the members used by the
embedded code). -/
inductive Ty where
  | nilT
  | logical
  | integer
  | double
  | character
  | complexT
  | listT
  | functionT
  | environment
  | objectT
deriving DecidableEq, Repr

/-- Logical elements are bytes holding true, false or the NA sentinel. -/
inductive LVal where
  | t
  | f
  | na
deriving DecidableEq, Repr

/-- Double elements: the NA bit pattern is a distinguished NaN; all other
payloads that the embedded code inspects are compared against zero, which we
model over Int payloads. -/
inductive DblVal where
  | na
  | num (x : Int)
deriving DecidableEq, Repr

/-- Integer NA sentinel: INT64_MIN. -/
def intNA : Int := -(2 ^ 63)

/-- Runtime Value (value.h tagged union).  Vector variants carry their
elements; a length-1 vector is the scalar shape (no observable difference per
the data-model invariant).  Promise/Default carry the thunk prototype and the
captured environment; environments are arena ids into Thread.envHeap. -/
inductive Value where
  | nilValue
  | logicalV (xs : List LVal)
  | integerV (xs : List Int)
  | doubleV (xs : List DblVal)
  | characterV (xs : List Int)
  | listV (n : Nat)
  | closure (proto : Int) (env : Nat)
  | promise (proto : Int) (env : Nat)
  | defaultArg (proto : Int) (env : Nat)
  | envRef (e : Nat)
deriving DecidableEq, Repr

/-- Modelled from the spec: Value::isConcrete is not under src/.  A binding is
concrete when it is neither a Promise, nor a Default, nor Nil (the three shapes
that forceReg distinguishes: the first two are forced, Nil raises "object not
found"). -/
def Value.isConcrete : Value → Bool
  | .promise _ _ => false
  | .defaultArg _ _ => false
  | .nilValue => false
  | _ => true

/-- Modelled from the spec: Value::isClosureSafe is not under src/.  A value is
closure-safe when returning it cannot leak the callee environment: closures,
promises, defaults, environment references and lists (which may contain
closures) are unsafe, plain data vectors are safe. -/
def Value.isClosureSafe : Value → Bool
  | .closure _ _ => false
  | .promise _ _ => false
  | .defaultArg _ _ => false
  | .envRef _ => false
  | .listV _ => false
  | _ => true

/-- Environment record: name-to-value bindings plus the lexical parent
(static scope) and dynamic parent (caller scope).  Interned names are the
positive integers that instruction operands are cast to. -/
structure EnvData where
  lexParent : Option Nat
  dynParent : Option Nat
  bindings : List (Int × Value)
deriving DecidableEq, Repr

/-- First binding for a key in an association list. -/
def lookupBind : List (Int × Value) → Int → Option Value
  | [], _ => none
  | (m, w) :: rest, n => if m == n then some w else lookupBind rest n

/-- Insert or overwrite a binding in an association list. -/
def insertBind : List (Int × Value) → Int → Value → List (Int × Value)
  | [], n, v => [(n, v)]
  | (m, w) :: rest, n, v =>
      if m == n then (n, v) :: rest else (m, w) :: insertBind rest n v

/-- Modelled from the spec: Environment::getRecursive is not under src/.  It
walks lexical parents until the name is bound, returning Nil if it is bound
nowhere.  The fuel argument bounds the walk (parent chains in a well-formed
heap are acyclic and shorter than the heap). -/
def getRecAux (heap : List EnvData) : Nat → Nat → Int → Value
  | 0, _, _ => .nilValue
  | fuel + 1, e, name =>
      match heap.get? e with
      | none => .nilValue
      | some ed =>
          match lookupBind ed.bindings name with
          | some v => v
          | none =>
              match ed.lexParent with
              | some p => getRecAux heap fuel p name
              | none => .nilValue

/-- Recursive lookup starting from environment e. -/
def getRecursive (heap : List EnvData) (e : Nat) (name : Int) : Value :=
  getRecAux heap (heap.length + 1) e name

/-- Modelled from the spec: Environment::DynamicScope() returns the dynamic
parent (caller environment at invocation). -/
def dynScope (heap : List EnvData) (e : Nat) : Option Nat :=
  (heap.get? e).bind (fun ed => ed.dynParent)

/-- Environment insert: write a binding of environment e in the heap. -/
def envInsert (heap : List EnvData) (e : Nat) (name : Int) (v : Value) :
    List EnvData :=
  match heap.get? e with
  | none => heap
  | some ed => heap.set e { ed with bindings := insertBind ed.bindings name v }

/-- Read a binding of environment e (Nil if absent), as Environment::get. -/
def envGet (heap : List EnvData) (e : Nat) (name : Int) : Value :=
  match heap.get? e with
  | none => .nilValue
  | some ed => (lookupBind ed.bindings name).getD .nilValue

/-- Interpreter stack frame (interpreter.h StackFrame, the fields ret_op and
forceReg use): evaluation environment, ownership flag, prototype, saved
register base, return pc, destination (register index i when i is at most 0,
otherwise the interned name s written in environment env). -/
structure StackFrame where
  environment : Nat
  ownEnvironment : Bool
  prototype : Int
  returnbase : Int
  returnpc : Int
  i : Int
  s : Int
  env : Nat
deriving DecidableEq, Repr

/-- Default frame value (used for stack resizing and head defaults). -/
def dfltFrame : StackFrame :=
  { environment := 0, ownEnvironment := false, prototype := 0, returnbase := 0,
    returnpc := 0, i := 0, s := 0, env := 0 }

/-- Thread state: moving register base, register file (addressed by absolute
slot address base - i), frame stack (head is the current frame), environment
arena, and the environment free list. -/
structure Thread where
  base : Int
  regs : List (Int × Value)
  stack : List StackFrame
  envHeap : List EnvData
  freeEnvs : List Nat
deriving DecidableEq, Repr

/-- Current frame (thread.frame in the source is the top of the stack). -/
def curFrame (t : Thread) : StackFrame := t.stack.headD dfltFrame

/-- Register read at absolute address p (REGISTER(i) is *(base - i)). -/
def regGet (regs : List (Int × Value)) (p : Int) : Value :=
  (lookupBind regs p).getD .nilValue

/-- Errors raised by the embedded handlers, named after the source messages. -/
inductive RtError where
  | objectNotFound (name : Int)
  | naWhereTrueFalseNeeded
  | needSingleElementLogical
deriving DecidableEq, Repr

/-- Result of an operand fetch: a concrete value, a request to push a stack
frame (evaluation environment, ownership flag, thunk prototype, destination
environment and name the forced value is written back to, and the pc the
interpreter re-enters on return), or an error. -/
inductive FetchResult where
  | value (v : Value)
  | push (evalEnv : Option Nat) (own : Bool) (proto : Int) (destEnv : Nat)
      (destName : Int) (retpc : Int)
  | raiseErr (e : RtError)
deriving DecidableEq, Repr

/-- forceReg (interpreter.cpp lines 26-36): a Promise is evaluated in the
dynamic scope of its captured environment, a Default in its captured (callee)
environment; both re-enter the current instruction (retpc = pc) and write the
forced value back to the promise slot (name in the captured environment).
Anything else raises "Object '...' not found". -/
def forceReg (t : Thread) (pc : Int) (a : Value) (name : Int) : FetchResult :=
  match a with
  | .promise p e => .push (dynScope t.envHeap e) false p e name pc
  | .defaultArg p e => .push (some e) false p e name pc
  | _ => .raiseErr (.objectNotFound name)

/-- OPERAND macro (interpreter.cpp lines 40-49): an index at most 0 reads the
register slot base - i without a concreteness check; a positive index is an
interned name looked up recursively, and a non-concrete result goes through
forceReg. -/
def fetchOperand (t : Thread) (pc : Int) (idx : Int) : FetchResult :=
  if idx ≤ 0 then .value (regGet t.regs (t.base - idx))
  else
    let v := getRecursive t.envHeap (curFrame t).environment idx
    if v.isConcrete then .value v else forceReg t pc v idx

/-- UNCHECKED_OPERAND macro: same addressing, never forces. -/
def uncheckedOperand (t : Thread) (idx : Int) : Value :=
  if idx ≤ 0 then regGet t.regs (t.base - idx)
  else getRecursive t.envHeap (curFrame t).environment idx

/-- Outcome of the conditional jump handler. -/
inductive JcOut where
  | jump (target : Int)
  | raiseErr (e : RtError)
  | forcePush (f : FetchResult)
deriving DecidableEq, Repr

/-- jc_op (interpreter.cpp lines 187-204).  Offsets a and b are the true and
false targets relative to the current pc; cidx names the condition operand. -/
def jc_op (t : Thread) (pc a b cidx : Int) : JcOut :=
  match uncheckedOperand t cidx with
  | .logicalV [x] =>
      if x == .t then .jump (pc + a)
      else if x == .f then .jump (pc + b)
      else .raiseErr .naWhereTrueFalseNeeded
  | .integerV [i] =>
      if i == intNA then .raiseErr .naWhereTrueFalseNeeded
      else if i != 0 then .jump (pc + a) else .jump (pc + b)
  | .doubleV [d] =>
      match d with
      | .na => .raiseErr .naWhereTrueFalseNeeded
      | .num x => if x != 0 then .jump (pc + a) else .jump (pc + b)
  | c =>
      if cidx > 0 && !c.isConcrete then .forcePush (forceReg t pc c cidx)
      else .raiseErr .needSingleElementLogical

/-- Outcome of the return handler. -/
inductive RetOut where
  | done (t : Thread) (returnpc : Int)
  | forcePush (f : FetchResult)
  | raiseErr (e : RtError)
  | stuck
deriving DecidableEq, Repr

/-- ret_op (interpreter.cpp lines 137-153): fetch the result operand (forcing
it first if it is a named promise), recycle the frame environment onto the
free list exactly when the frame owns it and the result is closure-safe,
restore the saved register base, write the result to the destination (register
slot returnbase - i when i is at most 0, otherwise the named binding s of
environment env), pop the frame and resume at the saved return pc. -/
def ret_op (t : Thread) (pc instA : Int) : RetOut :=
  match fetchOperand t pc instA with
  | .push a b c d e f => .forcePush (.push a b c d e f)
  | .raiseErr e => .raiseErr e
  | .value result =>
      match t.stack with
      | [] => .stuck
      | fr :: rest =>
          let t1 :=
            if fr.ownEnvironment && result.isClosureSafe then
              { t with freeEnvs := t.freeEnvs ++ [fr.environment] }
            else t
          let t2 := { t1 with base := fr.returnbase }
          let t3 :=
            if fr.i ≤ 0 then
              { t2 with regs := insertBind t2.regs (fr.returnbase - fr.i) result }
            else
              { t2 with envHeap := envInsert t2.envHeap fr.env fr.s result }
          .done { t3 with stack := rest } fr.returnpc

/-- Outcome of one interpreter run, seen from Thread::eval: either a normal
completion or an error unwinding out of interpret(), each observing some thread
state. -/
inductive InterpOutcome where
  | normal (t : Thread)
  | errorOut (e : RtError) (t : Thread)

/-- Result of Thread::eval: final thread state, the value read from the result
slot on success, and the re-thrown error on failure. -/
structure EvalOut where
  thread : Thread
  result : Option Value
  err : Option RtError

/-- std::vector::resize on the frame stack: truncate to n frames, or pad with
default-constructed frames when the stack is shorter than n. -/
def resizeStack (s : List StackFrame) (n : Nat) : List StackFrame :=
  if n ≤ s.length then s.take n else s ++ List.replicate (n - s.length) dfltFrame

/-- The half-hearted result frame Thread::eval pushes before running: a frame
with null environment and prototype whose returnbase is the current base, after
which base moves down one slot to reserve the result. -/
def pushSentinel (t : Thread) : Thread :=
  let s : StackFrame :=
    { dfltFrame with environment := 0, prototype := 0, returnbase := t.base }
  { t with stack := s :: t.stack, base := t.base - 1 }

/-- Thread::eval (interpreter.cpp lines 632-659).  prep stands for the
buildStackFrame call for the evaluated prototype (modelled from the spec: that
helper is not under src/, so it is an arbitrary state transformer here), and
runner stands for the interpret() loop, yielding either a normal completion or
an error.  On success the saved base is restored and the sentinel frame popped;
on error the saved base is restored and the stack resized to its entry height
before the error is re-thrown. -/
def threadEval (t : Thread) (prep : Thread → Thread)
    (runner : Thread → InterpOutcome) : EvalOut :=
  let oldBase := t.base
  let stackSize := t.stack.length
  let t2 := prep (pushSentinel t)
  match runner t2 with
  | .normal tf =>
      { thread := { tf with base := oldBase, stack := tf.stack.tail },
        result := some (regGet tf.regs (oldBase - 1)), err := none }
  | .errorOut e te =>
      { thread := { te with base := oldBase, stack := resizeStack te.stack stackSize },
        result := none, err := some e }

/-- Type and length of a value, as inspected by the JIT trigger. -/
structure VInfo where
  ty : Ty
  len : Int
deriving DecidableEq, Repr

/-- isRecordableType (interpreter.cpp lines 72-74). -/
def isRecordableType (t : Ty) : Bool :=
  t == .double || t == .integer || t == .logical

/-- The unary JIT trigger (interpreter.cpp lines 76-83): hand control to the
recorder when the JIT flag is on, the type is recordable and the length reaches
the tile threshold TRACE_VECTOR_WIDTH (parameter W).  We model the return as
the decision whether BeginTracing is invoked; modelled from the spec,
BeginTracing yields the non-null trace-entry pc, so true means control is
handed over and false is the null return. -/
def traceTrigger1 (W : Int) (jit : Bool) (v : VInfo) : Bool :=
  jit && isRecordableType v.ty && decide (v.len ≥ W)

/-- The binary JIT trigger (interpreter.cpp lines 89-97): both operand types
must be recordable and at least one operand length must reach the threshold. -/
def traceTrigger2 (W : Int) (jit : Bool) (a b : VInfo) : Bool :=
  jit && isRecordableType a.ty && isRecordableType b.ty &&
    (decide (a.len ≥ W) || decide (b.len ≥ W))

/-- The trigger call made by seq_op (interpreter.cpp lines 399-410): the
arguments are Type::Integer and the requested sequence length, i.e. the integer
value coerced from the first operand, not any operand's vector length. -/
def seqOpTrigger (W : Int) (jit : Bool) (lenVal : Int) : Bool :=
  traceTrigger1 W jit { ty := .integer, len := lenVal }

/-- Claim-side reading of the trigger condition for seq, following the spec
text: the trigger fires when the JIT flag is set, every operand type is
recordable, and at least one operand's length reaches the threshold. -/
def seqTriggerClaim (W : Int) (jit : Bool) (lenOp stepOp : VInfo) : Bool :=
  jit && isRecordableType lenOp.ty && isRecordableType stepOp.ty &&
    (decide (lenOp.len ≥ W) || decide (stepOp.len ≥ W))

/-- Trace IR opcodes (TraceOpCode enum, the members the embedded passes
inspect, plus representative arithmetic members). -/
inductive TOp where
  | constant
  | sload
  | load
  | sstore
  | store
  | slength
  | elength
  | alength
  | olength
  | curenv
  | lenv
  | denv
  | newenv
  | push
  | kill
  | nest
  | gtrue
  | gfalse
  | gproto
  | le
  | gt
  | lt
  | land
  | add
  | sub
  | mul
  | rep
  | seq
  | gather
  | scatter
  | phi
  | jmp
  | loop
  | exit
  | length
  | asinteger
  | asdouble
  | aslogical
  | ascharacter
  | ifelse
deriving DecidableEq, Repr

/-- JIT Shape: field length is the IR reference producing the run-time length
(the source stores an IRRef here and feeds it to IR operands, e.g. in rep and
MergeShapes guard emission); field traceLength is the observed concrete length
used for decisions (the source compares and orders shapes by it).  The spec
calls these traceLength and concreteLength respectively. -/
structure Shape where
  length : Int
  traceLength : Int
deriving DecidableEq, Repr

/-- Shape::Empty = { 0, 0 }. -/
def Shape.empty : Shape := { length := 0, traceLength := 0 }

/-- Shape::Scalar = { 1, 1 }. -/
def Shape.scalar : Shape := { length := 1, traceLength := 1 }

/-- Modelled from the spec: Shape::operator== is in a header not under src/.
Per the spec data model, two shapes are equal iff their traceLength references
(field length in the source's naming) are equal. -/
def shapeEqb (a b : Shape) : Bool := a.length == b.length

/-- Trace IR node: opcode, three operand slots (IR references or small
immediates), result type, input shape and output shape (fields in and out in
the source; in is a Lean keyword, hence inp). -/
structure IR where
  op : TOp
  a : Int
  b : Int
  c : Int
  type : Ty
  inp : Shape
  out : Shape
deriving DecidableEq, Repr

/-- JIT::insert: push a node, returning the new trace and the node's IRRef
(trace.size()-1 after the push). -/
def insertIR (t : List IR) (ir : IR) : List IR × Int :=
  (t ++ [ir], (t.length : Int))

/-- The shape-forwarding loop of MergeShapes' equal-traceLength case: every
node whose input or output length reference equals o is rewritten to n. -/
def rewriteShapes (t : List IR) (o n : Int) : List IR :=
  t.map fun ir =>
    let i2 := if ir.inp.length == o then { ir.inp with length := n } else ir.inp
    let o2 := if ir.out.length == o then { ir.out with length := n } else ir.out
    { ir with inp := i2, out := o2 }

/-- The guard block MergeShapes emits when concrete lengths differ, for shorter
shape sa against longer shape sb: le(sa.length, sb.length), gt(sa.length, 0),
land of the two, and a gtrue guard on the conjunction. -/
def emitLtGuard (tr : List IR) (sa sb : Shape) : List IR :=
  let p1 := insertIR tr
    { op := .le, a := sa.length, b := sb.length, c := 0, type := .logical,
      inp := Shape.scalar, out := Shape.scalar }
  let p2 := insertIR p1.1
    { op := .gt, a := sa.length, b := 0, c := 0, type := .logical,
      inp := Shape.scalar, out := Shape.scalar }
  let p3 := insertIR p2.1
    { op := .land, a := p1.2, b := p2.2, c := 0, type := .logical,
      inp := Shape.scalar, out := Shape.scalar }
  (insertIR p3.1
    { op := .gtrue, a := p3.2, b := 0, c := 0, type := .nilT,
      inp := Shape.scalar, out := Shape.empty }).1

/-- JIT::MergeShapes.  Equal shapes merge to the first; an Empty operand gives
Empty; equal concrete lengths with different length references keep the shape
with the smaller reference and forward the larger reference to the smaller
throughout the trace; different concrete lengths emit a guard that the shorter
length lies in (0, longer] and keep the longer shape.  (The reenter record
attached to the guard is bookkeeping that does not affect the returned trace
nodes or shape and is omitted.) -/
def MergeShapes (tr : List IR) (a b : Shape) : List IR × Shape :=
  if shapeEqb a b then (tr, a)
  else if shapeEqb a Shape.empty || shapeEqb b Shape.empty then (tr, Shape.empty)
  else if a.traceLength == b.traceLength then
    (rewriteShapes tr (max a.length b.length) (min a.length b.length),
     if a.length < b.length then a else b)
  else if a.traceLength < b.traceLength then
    (emitLtGuard tr a b, b)
  else
    (emitLtGuard tr b a, a)

/-- The shapes of recorder-level values as SpecializeValue inspects them:
null, a vector with its observed length, or a non-vector scalar. -/
inductive RecVal where
  | nullV
  | vecV (len : Nat) (ty : Ty)
  | scalarV
deriving DecidableEq, Repr

/-- Modelled from the spec: makeConstant is not under src/.  A constant node
holds the scalar integer payload in operand a, has type Integer, empty input
shape and scalar output shape. -/
def constIntIR (k : Nat) : IR :=
  { op := .constant, a := (k : Int), b := 0, c := 0, type := .integer,
    inp := Shape.empty, out := Shape.scalar }

/-- JIT::SpecializeLength (part_000 lines 26-35): lengths at or below the
threshold push a constant holding the observed length and return a shape whose
length reference is that constant; longer lengths return a shape keeping the
symbolic irlength reference.  The threshold SPECIALIZE_LENGTH is a build
constant not under src/, taken here as a parameter. -/
def SpecializeLength (sl : Nat) (tr : List IR) (len : Nat) (irlength : Int) :
    List IR × Shape :=
  if len ≤ sl then
    let p := insertIR tr (constIntIR len)
    (p.1, { length := p.2, traceLength := (len : Int) })
  else
    (tr, { length := irlength, traceLength := (len : Int) })

/-- JIT::SpecializeValue (part_000 lines 37-46): null values get the Empty
shape; vectors push the passed slength/elength node and specialize its length;
everything else is Scalar. -/
def SpecializeValue (sl : Nat) (tr : List IR) (v : RecVal) (ir : IR) :
    List IR × Shape :=
  match v with
  | .nullV => (tr, Shape.empty)
  | .vecV len _ =>
      let t1 := tr ++ [ir]
      SpecializeLength sl t1 len ((t1.length : Int) - 1)
  | .scalarV => (tr, Shape.scalar)

/-- Claim-side characterization of a guard node, following the spec: a guard
is Nil-typed (produces no value); the dedicated guard opcodes are gtrue, gfalse
and gproto.  A node is guard-like when it is Nil-typed or carries a guard
opcode. -/
def isGuardLike (ir : IR) : Bool :=
  ir.type == .nilT || ir.op == .gtrue || ir.op == .gfalse || ir.op == .gproto

/-- Set-insert on the fusion-group membership list (std::set semantics: only
membership is observable). -/
def insertMem (l : List Int) (x : Int) : List Int :=
  if l.contains x then l else x :: l

/-- The boundary condition of JIT::schedule (part_000 lines 883-889): the
node's input shape differs from the running group shape, or the node is a
scatter or gather whose operand c is already a group member, or it is a
gtrue/gfalse guard, a load, or an sload. -/
def boundaryCheck (gSize : Shape) (gMembers : List Int) (node : IR) : Bool :=
  !(shapeEqb node.inp gSize) ||
  (node.op == .scatter && gMembers.contains node.c) ||
  (node.op == .gather && gMembers.contains node.c) ||
  node.op == .gtrue || node.op == .gfalse ||
  node.op == .load || node.op == .sload

/-- The forward pass of JIT::schedule: on a boundary, mark the node unfusable,
reset the group shape to the node's input shape and clear the membership set;
then insert the node index, plus operand b for a gather and operand c for a
scatter. -/
def scheduleGo : List IR → Nat → Shape → List Int → List Bool
  | [], _, _, _ => []
  | node :: rest, i, gSize, gMembers =>
      let isB := boundaryCheck gSize gMembers node
      let gSize2 := if isB then node.inp else gSize
      let gm1 := if isB then ([] : List Int) else gMembers
      let gm2 := insertMem gm1 (i : Int)
      let gm3 := if node.op == .gather then insertMem gm2 node.b else gm2
      let gm4 := if node.op == .scatter then insertMem gm3 node.c else gm3
      (!isB) :: scheduleGo rest (i + 1) gSize2 gm4

/-- JIT::schedule (part_000 lines 874-899): fusable flags for each node, with
the group shape seeded by the sentinel Shape(-1, -1). -/
def schedule (code : List IR) : List Bool :=
  scheduleGo code 0 { length := -1, traceLength := -1 } []

/-- A shape used by the scheduler example trace below. -/
def exShape : Shape := { length := 1, traceLength := 100 }

/-- Example scheduler input: a constant, an sload of a vector, an add on it (a
fusion boundary because the group shape changes), a mul extending the group,
and a gather whose base (operand a) is the mul node inside the current group
while its unused operand c is 0, as every gather the recorder emits. -/
def schedEx : List IR :=
  [ { op := .constant, a := 100, b := 0, c := 0, type := .integer,
      inp := Shape.empty, out := Shape.scalar },
    { op := .sload, a := -1, b := 2, c := 0, type := .double,
      inp := Shape.empty, out := exShape },
    { op := .add, a := 1, b := 1, c := 0, type := .double,
      inp := exShape, out := exShape },
    { op := .mul, a := 2, b := 2, c := 0, type := .double,
      inp := exShape, out := exShape },
    { op := .gather, a := 3, b := 0, c := 0, type := .double,
      inp := exShape, out := exShape } ]

/-- TraceBC opcodes of the tile interpreter (trace_interpret.cpp lines 14-31):
the generated arithmetic family members are abstracted by an index, the cast
and special members are explicit. -/
inductive TraceBC where
  | arith (k : Nat)
  | lnot
  | seq
  | casti2d
  | castd2i
  | castl2i
  | castl2d
  | casti2l
  | castd2l
deriving DecidableEq, Repr

/-- is_widening_cast (trace_interpret.cpp lines 33-35): exactly the casts from
the 1-byte logical element type to the 8-byte integer and double types. -/
def is_widening_cast (e : TraceBC) : Bool :=
  e == .castl2i || e == .castl2d

/-- Where an instruction's result pointer points: a vector-tile register of the
register file, or external memory (the storev/storec retarget).  A null result
pointer is Option.none one level up. -/
inductive Loc where
  | rg (r : Nat)
  | extMem
deriving DecidableEq, Repr

/-- One tile instruction as pass 2 of TraceInterpret::compile sees it: its
opcode, whether the result is a register (REG_R flag), the producing
instruction index behind each register operand (REG_A/REG_B flags; none for
constant or memory operands), and the initial result pointer produced by
pass 1 (none for a null pointer, extMem when storev or storec retargeted it). -/
structure TInst where
  bc : TraceBC
  hasR : Bool
  aOp : Option Nat
  bOp : Option Nat
  r0 : Option Loc
deriving DecidableEq, Repr

/-- Default tile instruction (for indexed access with a default). -/
def dfltTInst : TInst :=
  { bc := .lnot, hasR := false, aOp := none, bOp := none, r0 := none }

/-- Register-allocator state: the free bitmask (bit true = free, 32 bits as in
the uint32 Allocator) and the current result pointer of every instruction. -/
structure AllocSt where
  free : List Bool
  slot : List (Option Loc)
deriving DecidableEq, Repr

/-- Index of the lowest set bit, as ffs computes it for the Allocator. -/
def firstTrue : List Bool → Option Nat
  | [] => none
  | bb :: rest => if bb then some 0 else (firstTrue rest).map (· + 1)

/-- Allocator::allocate: take the lowest free register and clear its bit; an
exhausted mask (the source would shift by ffs(0)-1 = -1) is a failure. -/
def allocReg (f : List Bool) : Option (Nat × List Bool) :=
  (firstTrue f).map fun r => (r, f.set r false)

/-- Allocator::free: set the register's bit. -/
def freeReg (f : List Bool) (r : Nat) : List Bool := f.set r true

/-- The REG_R step of pass 2 (trace_interpret.cpp lines 180-186): a null result
pointer gets a register allocated (dead values still get one), then the result
register is computed from the pointer and freed.  An external result pointer
under the REG_R flag (only storec produces this) would make the source compute
a register index from out-of-file pointer arithmetic; that is not modellable
and is a failure here, excluded by the theorem's well-formedness premise. -/
def stepR (inst : TInst) (i : Nat) (s : AllocSt) : Option AllocSt :=
  if inst.hasR then
    match s.slot.getD i none with
    | none =>
        match allocReg s.free with
        | none => none
        | some (r, f1) => some { free := freeReg f1 r, slot := s.slot.set i (some (.rg r)) }
    | some (.rg r) => some { free := freeReg s.free r, slot := s.slot }
    | some .extMem => none
  else some s

/-- The REG_A step of pass 2 (trace_interpret.cpp lines 187-200): a not yet
assigned operand gets the next free register; if the instruction is a widening
cast and that register coincides with the result register, a second register is
allocated for the operand and the colliding one is freed. -/
def stepA (inst : TInst) (i : Nat) (s : AllocSt) : Option AllocSt :=
  match inst.aOp with
  | none => some s
  | some j =>
      match s.slot.getD j none with
      | some _ => some s
      | none =>
          match allocReg s.free with
          | none => none
          | some (r, f1) =>
              if is_widening_cast inst.bc && (s.slot.getD i none == some (.rg r)) then
                match allocReg f1 with
                | none => none
                | some (r2, f2) =>
                    some { free := freeReg f2 r, slot := s.slot.set j (some (.rg r2)) }
              else
                some { free := f1, slot := s.slot.set j (some (.rg r)) }

/-- The REG_B step of pass 2 (trace_interpret.cpp lines 201-206). -/
def stepB (inst : TInst) (s : AllocSt) : Option AllocSt :=
  match inst.bOp with
  | none => some s
  | some j =>
      match s.slot.getD j none with
      | some _ => some s
      | none =>
          match allocReg s.free with
          | none => none
          | some (r, f1) => some { free := f1, slot := s.slot.set j (some (.rg r)) }

/-- One iteration of the reverse loop of pass 2 for instruction index i. -/
def stepInst (insts : List TInst) (i : Nat) (s : AllocSt) : Option AllocSt :=
  match insts.get? i with
  | none => none
  | some inst => (stepR inst i s).bind (stepA inst i) |>.bind (stepB inst)

/-- The reverse walk: process indices k-1, k-2, ..., 0. -/
def passGo (insts : List TInst) : Nat → AllocSt → Option AllocSt
  | 0, s => some s
  | k + 1, s => (stepInst insts k s).bind (passGo insts k)

/-- Pass 2 of TraceInterpret::compile: all 32 registers free, result pointers
as pass 1 left them, instructions processed in reverse. -/
def regAlloc (insts : List TInst) : Option AllocSt :=
  passGo insts insts.length { free := List.replicate 32 true, slot := insts.map (·.r0) }

/-- An operand reference is well placed when it points to a strictly earlier
instruction. -/
def okOp (o : Option Nat) (i : Nat) : Bool :=
  match o with
  | none => true
  | some j => decide (j < i)

/-- A pass-1 result pointer is never already a register. -/
def okInit (o : Option Loc) : Bool :=
  match o with
  | some (.rg _) => false
  | _ => true

/-- Well-formedness of pass-1 output: operand references point to earlier
instructions (IR operands strictly precede their node) and no initial result
pointer is a register (pass 1 only produces null or external pointers). -/
def wellFormedPass1 (insts : List TInst) : Bool :=
  (List.range insts.length).all fun i =>
    okOp (insts.getD i dfltTInst).aOp i && okOp (insts.getD i dfltTInst).bOp i &&
      okInit (insts.getD i dfltTInst).r0

/-- Instruction j's result currently lives in register r. -/
def slotReg (s : AllocSt) (j : Nat) (r : Nat) : Prop :=
  s.slot.getD j none = some (.rg r)

/-- Allocator invariant A: every register held by a not yet processed
instruction (index below k) is inside the 32-register file and marked
allocated. -/
def InvA (s : AllocSt) (k : Nat) : Prop :=
  ∀ j r, j < k → slotReg s j r → r < s.free.length ∧ s.free.getD r false = false

/-- Allocator invariant B: not yet processed instructions hold pairwise
distinct registers. -/
def InvB (s : AllocSt) (k : Nat) : Prop :=
  ∀ j1 j2 r1 r2, j1 < k → j2 < k → j1 ≠ j2 →
    slotReg s j1 r1 → slotReg s j2 r2 → r1 ≠ r2

/-- Anti-aliasing bookkeeping for the instructions already processed (index at
least k): their register operand is assigned, and for a widening cast the
operand register differs from the result register. -/
def DoneP (insts : List TInst) (s : AllocSt) (k : Nat) : Prop :=
  ∀ i inst j, k ≤ i → insts.get? i = some inst → inst.aOp = some j →
    s.slot.getD j none ≠ none ∧
    (is_widening_cast inst.bc = true →
      ∀ ri rj, slotReg s i ri → slotReg s j rj → ri ≠ rj)

/-- Witness input for the anti-aliasing theorem: a producer and a widening
cast consuming it. -/
def w4insts : List TInst :=
  [ { bc := .arith 0, hasR := true, aOp := none, bOp := none, r0 := none },
    { bc := .castl2d, hasR := true, aOp := some 0, bOp := none, r0 := none } ]

/-- The allocator state the witness run ends in. -/
def w4final : AllocSt :=
  { free := List.replicate 32 true, slot := [some (.rg 1), some (.rg 0)] }

/-- The slength node SpecializeValue pushes for a register operand (load,
part_000 line 62): slength with a = -1 and b the register slot. -/
def slenEx : IR :=
  { op := .slength, a := -1, b := 3, c := 0, type := .integer,
    inp := Shape.empty, out := Shape.scalar }

/-- Witness thread for the promise branch of the operand fetch: environment 0
binds name 5 to a promise capturing environment 0, whose dynamic parent is
environment 3. -/
def t7a : Thread :=
  { base := 0, regs := [], stack := [{ dfltFrame with environment := 0 }],
    envHeap := [{ lexParent := none, dynParent := some 3,
                  bindings := [(5, .promise 2 0)] }],
    freeEnvs := [] }

/-- Witness thread for the default branch: name 6 is bound to a default whose
captured (callee) environment is 1. -/
def t7b : Thread :=
  { base := 0, regs := [], stack := [{ dfltFrame with environment := 0 }],
    envHeap := [{ lexParent := none, dynParent := none,
                  bindings := [(6, .defaultArg 4 1)] }],
    freeEnvs := [] }

/-- Witness thread for the missing-binding branch: name 7 is bound nowhere. -/
def t7c : Thread :=
  { base := 0, regs := [], stack := [{ dfltFrame with environment := 0 }],
    envHeap := [{ lexParent := none, dynParent := none, bindings := [] }],
    freeEnvs := [] }

/-- Witness frame for ret_op: owns its environment, destination is register
slot -2 relative to the restored base 20, return pc 77. -/
def fr8 : StackFrame :=
  { environment := 0, ownEnvironment := true, prototype := 0, returnbase := 20,
    returnpc := 77, i := -2, s := 0, env := 0 }

/-- Witness thread for ret_op: register slot 10 (base - 0) holds the scalar
integer 5 about to be returned. -/
def t8 : Thread :=
  { base := 10, regs := [(10, .integerV [5])], stack := [fr8],
    envHeap := [{ lexParent := none, dynParent := none, bindings := [] }],
    freeEnvs := [] }

/-- Witness thread for Thread::eval. -/
def t9 : Thread :=
  { base := 3, regs := [], stack := [dfltFrame, dfltFrame], envHeap := [],
    freeEnvs := [] }

/-- A scrambled thread state the erroring run leaves behind. -/
def tJunk9 : Thread :=
  { base := 42, regs := [], stack := List.replicate 5 dfltFrame, envHeap := [],
    freeEnvs := [] }

/-- A runner that raises an error out of interpret(), observing the scrambled
state. -/
def run9 : Thread → InterpOutcome := fun _ => .errorOut .naWhereTrueFalseNeeded tJunk9

/-- Witness thread for jc_op: register address 0 holds logical NA, address 1
the scalar integer 3, address 2 the scalar double 0. -/
def t10 : Thread :=
  { base := 0,
    regs := [(0, .logicalV [.na]), (1, .integerV [3]), (2, .doubleV [.num 0])],
    stack := [], envHeap := [], freeEnvs := [] }

/-
Theorems.  Helper lemmas come first, then one theorem per claim (with its
witness or counterexample where required).
-/

theorem aux_get?_set_self {α : Type} (l : List α) (i : Nat) (v : α)
    (h : i < l.length) : (l.set i v).get? i = some v := by
  induction l generalizing i with
  | nil => simp at h
  | cons x xs ih =>
      cases i with
      | zero => rfl
      | succ n => exact ih n (by simpa using h)

theorem aux_get?_set_ne {α : Type} (l : List α) (i j : Nat) (v : α)
    (h : i ≠ j) : (l.set i v).get? j = l.get? j := by
  induction l generalizing i j with
  | nil => rfl
  | cons x xs ih =>
      cases i with
      | zero =>
          cases j with
          | zero => exact absurd rfl h
          | succ m => rfl
      | succ n =>
          cases j with
          | zero => rfl
          | succ m => exact ih n m (by omega)

theorem aux_getD_eq_get? {α : Type} (l : List α) (i : Nat) (d : α) :
    l.getD i d = (l.get? i).getD d := by
  induction l generalizing i with
  | nil => cases i <;> rfl
  | cons x xs ih => cases i with
      | zero => rfl
      | succ n => exact ih n

theorem aux_getD_set_self {α : Type} (l : List α) (i : Nat) (v d : α)
    (h : i < l.length) : (l.set i v).getD i d = v := by
  rw [aux_getD_eq_get?, aux_get?_set_self l i v h]; rfl

theorem aux_getD_set_ne {α : Type} (l : List α) (i j : Nat) (v d : α)
    (h : i ≠ j) : (l.set i v).getD j d = l.getD j d := by
  rw [aux_getD_eq_get?, aux_get?_set_ne l i j v h, aux_getD_eq_get?]

theorem aux_set_getD_self {α : Type} (l : List α) (i : Nat) (d : α) :
    l.set i (l.getD i d) = l := by
  induction l generalizing i with
  | nil => rfl
  | cons x xs ih => cases i with
      | zero => rfl
      | succ n => simpa using ih n

theorem aux_length_set {α : Type} (l : List α) (i : Nat) (v : α) :
    (l.set i v).length = l.length := List.length_set l i v

theorem aux_firstTrue_spec (l : List Bool) (r : Nat) (h : firstTrue l = some r) :
    r < l.length ∧ l.getD r false = true := by
  induction l generalizing r with
  | nil => simp [firstTrue] at h
  | cons x xs ih =>
      by_cases hx : x = true
      · subst hx
        simp [firstTrue] at h
        subst h
        simp
      · have hx' : x = false := by simpa using hx
        subst hx'
        simp [firstTrue] at h
        obtain ⟨r', hr', rfl⟩ := h
        obtain ⟨h1, h2⟩ := ih r' hr'
        exact ⟨by simpa using h1, by simpa using h2⟩

theorem aux_lookupBind_insertBind (l : List (Int × Value)) (n : Int) (v : Value) :
    lookupBind (insertBind l n v) n = some v := by
  induction l with
  | nil => simp [insertBind, lookupBind]
  | cons x xs ih =>
      obtain ⟨m, w⟩ := x
      by_cases hm : m = n
      · simp [insertBind, lookupBind, hm]
      · simp [insertBind, lookupBind, hm, ih]

theorem aux_envGet_envInsert (heap : List EnvData) (e : Nat) (n : Int)
    (v : Value) (ed : EnvData) (h : heap.get? e = some ed) :
    envGet (envInsert heap e n v) e n = v := by
  have he : e < heap.length := by
    by_contra hc
    rw [List.get?_eq_none.mpr (by omega)] at h
    exact Option.noConfusion h
  rw [envInsert, h, envGet, aux_get?_set_self heap e _ he]
  simp [aux_lookupBind_insertBind]

theorem aux_resizeStack_length (s : List StackFrame) (n : Nat) :
    (resizeStack s n).length = n := by
  unfold resizeStack
  split_ifs with h
  · simpa using h
  · simp
    omega

/-- Claim C2.  The scheduler run on schedEx: the trailing gather stays fusable
even though its base vector (operand a, the mul at index 3) was already seen
inside the current fusion group {2, 3}, because the pass tests the gather's
operand c — which is always 0 in the gathers the recorder emits — instead of
its base operand a.  The claim (and the hazard note right below the pass in
the source) requires such a gather to start a new group, i.e. fusable[4] =
false; the code leaves it true. -/
theorem schedule_gather_checks_c_not_base :
    schedule schedEx = [false, false, false, true, true] := by decide

/-- Claim C3 (counterexample).  Under the spec's shape equality (equal
traceLength references, the length field in the source's naming), MergeShapes
is not commutative as claimed: two shapes sharing the length reference 5 but
observed as 10 and 20 merge to the first argument, so the two orders return
shapes with different concrete lengths. -/
theorem MergeShapes_comm_counterexample :
    (MergeShapes [] { length := 5, traceLength := 10 }
        { length := 5, traceLength := 20 }).2.traceLength ≠
    (MergeShapes [] { length := 5, traceLength := 20 }
        { length := 5, traceLength := 10 }).2.traceLength := by decide

/-- Claim C3 (amended).  For shapes that agree on the observed concrete length
whenever they share a traceLength reference, MergeShapes(a,b) and
MergeShapes(b,a) return identical resulting shapes (the guards emitted along
the way may differ in placement; the returned shape does not). -/
theorem MergeShapes_comm (tr : List IR) (a b : Shape)
    (h : a.length = b.length → a.traceLength = b.traceLength) :
    (MergeShapes tr a b).2 = (MergeShapes tr b a).2 := by
  by_cases hab : a.length = b.length
  · have hab2 : a.traceLength = b.traceLength := h hab
    have hEq : a = b := by
      cases a
      cases b
      simp_all
    subst hEq
    rfl
  · unfold MergeShapes
    simp only [shapeEqb, beq_iff_eq, Bool.or_eq_true, decide_eq_true_eq]
    split_ifs <;> first | rfl | omega

/-- Witness for the amended C3 theorem at concrete shapes with distinct
traceLength references and different concrete lengths. -/
theorem MergeShapes_comm_witness :
    (MergeShapes [] { length := 3, traceLength := 7 }
        { length := 4, traceLength := 9 }).2 =
    (MergeShapes [] { length := 4, traceLength := 9 }
        { length := 3, traceLength := 7 }).2 :=
  MergeShapes_comm [] { length := 3, traceLength := 7 }
    { length := 4, traceLength := 9 } (by decide)

/-- Claim C5 (counterexample).  Specializing a short vector (length 4, at or
below the threshold 16) records the slength node and a constant: the resulting
trace is exactly [slength, constant 4] and contains no guard — no Nil-typed
node and no gtrue/gfalse/gproto — contradicting the claim that a guard on the
length is emitted for specialized lengths. -/
theorem SpecializeValue_counterexample :
    (SpecializeValue 16 [] (.vecV 4 .double) slenEx).1 = [slenEx, constIntIR 4] ∧
    ((SpecializeValue 16 [] (.vecV 4 .double) slenEx).1.all
      fun n => !(isGuardLike n)) = true := by decide

/-- Claim C5 (amended).  At or below the threshold, SpecializeValue records
the slength/elength node, then a constant holding the observed length, and the
resulting shape's length reference is that constant, so future uses of the
length see a constant; no guard node is emitted here.  Above the threshold the
trace gains only the slength/elength node and the shape keeps that node as its
symbolic length reference, with no constant substituted. -/
theorem SpecializeValue_spec (sl : Nat) (tr : List IR) (len : Nat) (ty : Ty)
    (ir : IR) :
    (len ≤ sl →
      SpecializeValue sl tr (.vecV len ty) ir =
        (tr ++ [ir, constIntIR len],
         { length := (tr.length : Int) + 1, traceLength := (len : Int) })) ∧
    (sl < len →
      SpecializeValue sl tr (.vecV len ty) ir =
        (tr ++ [ir],
         { length := (tr.length : Int), traceLength := (len : Int) })) := by
  constructor
  · intro hle
    simp [SpecializeValue, SpecializeLength, insertIR, hle]
  · intro hlt
    simp [SpecializeValue, SpecializeLength, insertIR, Nat.not_le.mpr hlt]

/-- Witness for the amended C5 theorem: both branches applied at the threshold
16, once with length 4 and once with length 100. -/
theorem SpecializeValue_spec_witness :
    SpecializeValue 16 [] (.vecV 4 .integer) slenEx =
      ([slenEx, constIntIR 4], { length := 1, traceLength := 4 }) ∧
    SpecializeValue 16 [] (.vecV 100 .integer) slenEx =
      ([slenEx], { length := 0, traceLength := 100 }) :=
  ⟨(SpecializeValue_spec 16 [] 4 .integer slenEx).1 (by decide),
   (SpecializeValue_spec 16 [] 100 .integer slenEx).2 (by decide)⟩

/-- Claim C6 (counterexample).  seq with the JIT flag on, threshold 128, and a
scalar Integer length operand holding 1000 (both operands have vector length
1): the trigger in seq_op fires on the requested sequence length, while the
claim's condition — some operand's length reaching the threshold — is false,
so the claimed if-and-only-if fails on seq. -/
theorem seq_trigger_counterexample :
    seqOpTrigger 128 true 1000 = true ∧
    seqTriggerClaim 128 true { ty := .integer, len := 1 }
      { ty := .integer, len := 1 } = false := by decide

/-- Claim C6 (amended).  The binary arithmetic trigger fires iff the JIT flag
is set, both operand types are Double/Integer/Logical and at least one operand
length reaches the threshold; the unary trigger is the one-operand analogue;
the seq trigger fires iff the JIT flag is set and the requested sequence
length (the integer value coerced from the length operand) reaches the
threshold, with no condition on the operands' own types or lengths.  A false
trigger is the null return on which interpretation continues. -/
theorem traceTrigger_spec (W : Int) (jit : Bool) (a b : VInfo) (lenVal : Int) :
    (traceTrigger2 W jit a b = true ↔
      jit = true ∧ isRecordableType a.ty = true ∧ isRecordableType b.ty = true ∧
        (W ≤ a.len ∨ W ≤ b.len)) ∧
    (traceTrigger1 W jit a = true ↔
      jit = true ∧ isRecordableType a.ty = true ∧ W ≤ a.len) ∧
    (seqOpTrigger W jit lenVal = true ↔ jit = true ∧ W ≤ lenVal) := by
  refine ⟨?_, ?_, ?_⟩ <;>
    simp [traceTrigger2, traceTrigger1, seqOpTrigger, isRecordableType,
      and_assoc]

/-- Claim C7.  Fetching a named operand (positive index) whose binding is a
Promise pushes a frame that evaluates the thunk prototype in the dynamic scope
of the promise's captured environment; a Default's thunk frame evaluates in
its captured (callee) environment; both write the forced value back to the
name's slot in the captured environment and re-enter the same instruction
(retpc = pc); a Nil binding raises "object not found". -/
theorem operand_fetch_spec (t : Thread) (pc idx : Int) (hpos : 0 < idx) :
    (∀ p e, getRecursive t.envHeap (curFrame t).environment idx = .promise p e →
      fetchOperand t pc idx = .push (dynScope t.envHeap e) false p e idx pc) ∧
    (∀ p e, getRecursive t.envHeap (curFrame t).environment idx = .defaultArg p e →
      fetchOperand t pc idx = .push (some e) false p e idx pc) ∧
    (getRecursive t.envHeap (curFrame t).environment idx = .nilValue →
      fetchOperand t pc idx = .raiseErr (.objectNotFound idx)) := by
  have hne : ¬ idx ≤ 0 := by omega
  refine ⟨?_, ?_, ?_⟩
  · intro p e hv
    simp [fetchOperand, hne, hv, Value.isConcrete, forceReg]
  · intro p e hv
    simp [fetchOperand, hne, hv, Value.isConcrete, forceReg]
  · intro hv
    simp [fetchOperand, hne, hv, Value.isConcrete, forceReg]

/-- Witness for C7: the three branches at concrete threads.  In t7a name 5 is
a promise captured in environment 0 whose dynamic parent is 3; in t7b name 6
is a default captured in environment 1; in t7c name 7 is unbound. -/
theorem operand_fetch_spec_witness :
    fetchOperand t7a 99 5 = .push (some 3) false 2 0 5 99 ∧
    fetchOperand t7b 99 6 = .push (some 1) false 4 1 6 99 ∧
    fetchOperand t7c 99 7 = .raiseErr (.objectNotFound 7) :=
  ⟨(operand_fetch_spec t7a 99 5 (by decide)).1 2 0 (by decide),
   (operand_fetch_spec t7b 99 6 (by decide)).2.1 4 1 (by decide),
   (operand_fetch_spec t7c 99 7 (by decide)).2.2 (by decide)⟩

/-- Claim C8.  When the result operand fetch yields a concrete value, ret_op
pops the current frame, resumes at its saved return pc, restores the saved
register base, recycles the frame environment onto the free list exactly when
the frame owns it and the value is closure-safe, and writes the result either
into the register slot returnbase - i (destination index at most 0, leaving
the environment heap unchanged) or into binding s of the destination
environment (positive destination index, leaving the registers unchanged). -/
theorem ret_op_spec (t : Thread) (pc instA : Int) (fr : StackFrame)
    (rest : List StackFrame) (result : Value)
    (hstack : t.stack = fr :: rest)
    (hfetch : fetchOperand t pc instA = .value result) :
    ∃ t2, ret_op t pc instA = .done t2 fr.returnpc ∧ t2.stack = rest ∧
      t2.base = fr.returnbase ∧
      t2.freeEnvs = (if fr.ownEnvironment && result.isClosureSafe
        then t.freeEnvs ++ [fr.environment] else t.freeEnvs) ∧
      (fr.i ≤ 0 →
        regGet t2.regs (fr.returnbase - fr.i) = result ∧ t2.envHeap = t.envHeap) ∧
      (0 < fr.i → t2.regs = t.regs ∧
        ∀ ed, t.envHeap.get? fr.env = some ed →
          envGet t2.envHeap fr.env fr.s = result) := by
  unfold ret_op
  rw [hfetch, hstack]
  refine ⟨_, rfl, rfl, ?_, ?_, ?_, ?_⟩
  · by_cases hi : fr.i ≤ 0 <;>
      by_cases hown : (fr.ownEnvironment && result.isClosureSafe) = true <;>
      simp [hi, hown]
  · by_cases hi : fr.i ≤ 0 <;>
      by_cases hown : (fr.ownEnvironment && result.isClosureSafe) = true <;>
      simp [hi, hown]
  · intro hi
    by_cases hown : (fr.ownEnvironment && result.isClosureSafe) = true <;>
      simp [hi, hown, regGet, aux_lookupBind_insertBind]
  · intro hi
    have hi' : ¬ fr.i ≤ 0 := by omega
    by_cases hown : (fr.ownEnvironment && result.isClosureSafe) = true <;>
      simp [hi', hown] <;>
      exact fun ed hed =>
        aux_envGet_envInsert t.envHeap fr.env fr.s result ed
          (by simpa [List.get?_eq_getElem?] using hed)

/-- Witness for C8: returning the scalar integer 5 through frame fr8 (owned
environment 0, register destination -2, saved base 20, return pc 77). -/
theorem ret_op_spec_witness :
    ∃ t2, ret_op t8 0 0 = .done t2 fr8.returnpc ∧ t2.stack = [] ∧
      t2.base = fr8.returnbase ∧
      t2.freeEnvs = (if fr8.ownEnvironment && (Value.integerV [5]).isClosureSafe
        then t8.freeEnvs ++ [fr8.environment] else t8.freeEnvs) ∧
      (fr8.i ≤ 0 →
        regGet t2.regs (fr8.returnbase - fr8.i) = Value.integerV [5] ∧
          t2.envHeap = t8.envHeap) ∧
      (0 < fr8.i → t2.regs = t8.regs ∧
        ∀ ed, t8.envHeap.get? fr8.env = some ed →
          envGet t2.envHeap fr8.env fr8.s = Value.integerV [5]) :=
  ret_op_spec t8 0 0 fr8 [] (Value.integerV [5]) (by decide) (by decide)

/-- Claim C9.  Whatever state the interpreter run leaves behind when it raises
an error, Thread::eval restores the base pointer captured on entry and resizes
the frame stack to the entry height before re-throwing, so the caller observes
the entry base pointer and stack height; the error itself is re-thrown
unchanged. -/
theorem threadEval_error_restores (t : Thread) (prep : Thread → Thread)
    (runner : Thread → InterpOutcome) (e : RtError) (te : Thread)
    (h : runner (prep (pushSentinel t)) = .errorOut e te) :
    (threadEval t prep runner).thread.base = t.base ∧
    (threadEval t prep runner).thread.stack.length = t.stack.length ∧
    (threadEval t prep runner).err = some e := by
  unfold threadEval
  simp [h, aux_resizeStack_length]

/-- Witness for C9: a runner that errors out observing a scrambled state
(base 42, five junk frames); eval still reports entry base 3 and entry height
2 to its caller. -/
theorem threadEval_error_restores_witness :
    (threadEval t9 id run9).thread.base = t9.base ∧
    (threadEval t9 id run9).thread.stack.length = t9.stack.length ∧
    (threadEval t9 id run9).err = some .naWhereTrueFalseNeeded :=
  threadEval_error_restores t9 id run9 .naWhereTrueFalseNeeded tJunk9 rfl

/-- Claim C10.  For a length-1 logical, integer or double condition whose
value is NA, jc raises "NA where TRUE/FALSE needed"; on non-NA scalars it
jumps to the true target (pc + a) exactly when the value is logical true or a
nonzero number, and to the false target (pc + b) otherwise. -/
theorem jc_op_scalar_spec (t : Thread) (pc a b cidx : Int) :
    (uncheckedOperand t cidx = .logicalV [.na] →
      jc_op t pc a b cidx = .raiseErr .naWhereTrueFalseNeeded) ∧
    (uncheckedOperand t cidx = .integerV [intNA] →
      jc_op t pc a b cidx = .raiseErr .naWhereTrueFalseNeeded) ∧
    (uncheckedOperand t cidx = .doubleV [.na] →
      jc_op t pc a b cidx = .raiseErr .naWhereTrueFalseNeeded) ∧
    (uncheckedOperand t cidx = .logicalV [.t] → jc_op t pc a b cidx = .jump (pc + a)) ∧
    (uncheckedOperand t cidx = .logicalV [.f] → jc_op t pc a b cidx = .jump (pc + b)) ∧
    (∀ i : Int, uncheckedOperand t cidx = .integerV [i] → i ≠ intNA →
      jc_op t pc a b cidx = if i ≠ 0 then .jump (pc + a) else .jump (pc + b)) ∧
    (∀ x : Int, uncheckedOperand t cidx = .doubleV [.num x] →
      jc_op t pc a b cidx = if x ≠ 0 then .jump (pc + a) else .jump (pc + b)) := by
  refine ⟨?_, ?_, ?_, ?_, ?_, ?_, ?_⟩
  · intro hv; simp [jc_op, hv]
  · intro hv; simp [jc_op, hv]
  · intro hv; simp [jc_op, hv]
  · intro hv; simp [jc_op, hv]
  · intro hv; simp [jc_op, hv]
  · intro i hv hna
    simp only [jc_op, hv]
    simp [hna, bne_iff_ne]
  · intro x hv
    simp only [jc_op, hv]
    simp [bne_iff_ne]

/-- Witness for C10: logical NA raises, the nonzero scalar integer 3 takes the
true target, the zero scalar double takes the false target (thread t10 holds
these three operands in registers 0, -1, -2). -/
theorem jc_op_scalar_spec_witness :
    jc_op t10 0 4 9 0 = .raiseErr .naWhereTrueFalseNeeded ∧
    jc_op t10 0 4 9 (-1) = .jump 4 ∧
    jc_op t10 0 4 9 (-2) = .jump 9 := by
  refine ⟨(jc_op_scalar_spec t10 0 4 9 0).1 (by decide), ?_, ?_⟩
  · have h := (jc_op_scalar_spec t10 0 4 9 (-1)).2.2.2.2.2.1 3 (by decide) (by decide)
    simpa using h
  · have h := (jc_op_scalar_spec t10 0 4 9 (-2)).2.2.2.2.2.2 0 (by decide)
    simpa using h

theorem aux_getD_map {α β : Type} (l : List α) (f : α → β) (i : Nat) (d : β) :
    (l.map f).getD i d = ((l.get? i).map f).getD d := by
  induction l generalizing i with
  | nil => cases i <;> rfl
  | cons x xs ih => cases i with
      | zero => rfl
      | succ n => exact ih n

theorem aux_get?_lt {α : Type} (l : List α) (i : Nat) (v : α)
    (h : l.get? i = some v) : i < l.length := by
  by_contra hc
  rw [List.get?_eq_none.mpr (by omega)] at h
  exact Option.noConfusion h

theorem aux_allocReg_spec (f : List Bool) (r : Nat) (f1 : List Bool)
    (h : allocReg f = some (r, f1)) :
    r < f.length ∧ f.getD r false = true ∧ f1 = f.set r false := by
  unfold allocReg at h
  rcases hft : firstTrue f with _ | r'
  · rw [hft] at h
    exact absurd h (by simp)
  · rw [hft] at h
    simp at h
    obtain ⟨rfl, rfl⟩ := h
    obtain ⟨h1, h2⟩ := aux_firstTrue_spec f r' hft
    exact ⟨h1, h2, rfl⟩

theorem aux_wf_extract (insts : List TInst) (hwf : wellFormedPass1 insts = true)
    (i : Nat) (inst : TInst) (hi : insts.get? i = some inst) :
    (∀ j, inst.aOp = some j → j < i) ∧ (∀ j, inst.bOp = some j → j < i) ∧
    (∀ r, inst.r0 ≠ some (.rg r)) := by
  have hlen : i < insts.length := aux_get?_lt insts i inst hi
  have hall := List.all_eq_true.mp hwf i (List.mem_range.mpr hlen)
  have hgd : insts.getD i dfltTInst = inst := by
    rw [aux_getD_eq_get?, hi]
    rfl
  rw [hgd] at hall
  simp only [Bool.and_eq_true] at hall
  obtain ⟨⟨ha, hb⟩, hr⟩ := hall
  refine ⟨?_, ?_, ?_⟩
  · intro j hj
    rw [hj] at ha
    simpa [okOp] using ha
  · intro j hj
    rw [hj] at hb
    simpa [okOp] using hb
  · intro r hr0
    rw [hr0] at hr
    simp [okInit] at hr

theorem stepR_cases (inst : TInst) (k : Nat) (s sR : AllocSt)
    (h : stepR inst k s = some sR) :
    (inst.hasR = false ∧ sR = s) ∨
    (inst.hasR = true ∧ ∃ r f1,
        s.slot.getD k none = none ∧ allocReg s.free = some (r, f1) ∧
        sR = { free := freeReg f1 r, slot := s.slot.set k (some (.rg r)) }) ∨
    (inst.hasR = true ∧ ∃ r,
        s.slot.getD k none = some (.rg r) ∧
        sR = { free := freeReg s.free r, slot := s.slot }) := by
  unfold stepR at h
  split at h
  · rename_i hR
    split at h
    · rename_i hslot
      split at h
      · exact absurd h (by simp)
      · rename_i p r f1 halloc
        simp at h
        exact Or.inr (Or.inl ⟨hR, r, f1, hslot, halloc, h.symm⟩)
    · rename_i r hslot
      simp at h
      exact Or.inr (Or.inr ⟨hR, r, hslot, h.symm⟩)
    · exact absurd h (by simp)
  · rename_i hR
    simp at h
    exact Or.inl ⟨by simpa using hR, h.symm⟩

theorem stepA_cases (inst : TInst) (k : Nat) (s sA : AllocSt)
    (h : stepA inst k s = some sA) :
    (inst.aOp = none ∧ sA = s) ∨
    (∃ j v, inst.aOp = some j ∧ s.slot.getD j none = some v ∧ sA = s) ∨
    (∃ j r f1, inst.aOp = some j ∧ s.slot.getD j none = none ∧
        allocReg s.free = some (r, f1) ∧
        ¬(is_widening_cast inst.bc = true ∧
            s.slot.getD k none = some (.rg r)) ∧
        sA = { free := f1, slot := s.slot.set j (some (.rg r)) }) ∨
    (∃ j r f1 r2 f2, inst.aOp = some j ∧ s.slot.getD j none = none ∧
        allocReg s.free = some (r, f1) ∧
        is_widening_cast inst.bc = true ∧
        s.slot.getD k none = some (.rg r) ∧
        allocReg f1 = some (r2, f2) ∧
        sA = { free := freeReg f2 r, slot := s.slot.set j (some (.rg r2)) }) := by
  unfold stepA at h
  split at h
  · rename_i hop
    simp at h
    exact Or.inl ⟨hop, h.symm⟩
  · rename_i j hop
    split at h
    · rename_i v hslot
      simp at h
      exact Or.inr (Or.inl ⟨j, v, hop, hslot, h.symm⟩)
    · rename_i hslot
      split at h
      · exact absurd h (by simp)
      · rename_i p r f1 halloc
        split at h
        · rename_i hcond
          simp only [Bool.and_eq_true, beq_iff_eq] at hcond
          split at h
          · exact absurd h (by simp)
          · rename_i p2 r2 f2 halloc2
            simp at h
            exact Or.inr (Or.inr (Or.inr
              ⟨j, r, f1, r2, f2, hop, hslot, halloc, hcond.1, hcond.2, halloc2,
               h.symm⟩))
        · rename_i hcond
          simp at h
          refine Or.inr (Or.inr (Or.inl ⟨j, r, f1, hop, hslot, halloc, ?_, h.symm⟩))
          intro hc
          exact hcond (by rw [hc.2]; simp [hc.1])

theorem stepB_cases (inst : TInst) (s sB : AllocSt)
    (h : stepB inst s = some sB) :
    (inst.bOp = none ∧ sB = s) ∨
    (∃ j v, inst.bOp = some j ∧ s.slot.getD j none = some v ∧ sB = s) ∨
    (∃ j r f1, inst.bOp = some j ∧ s.slot.getD j none = none ∧
        allocReg s.free = some (r, f1) ∧
        sB = { free := f1, slot := s.slot.set j (some (.rg r)) }) := by
  unfold stepB at h
  split at h
  · rename_i hop
    simp at h
    exact Or.inl ⟨hop, h.symm⟩
  · rename_i j hop
    split at h
    · rename_i v hslot
      simp at h
      exact Or.inr (Or.inl ⟨j, v, hop, hslot, h.symm⟩)
    · rename_i hslot
      split at h
      · exact absurd h (by simp)
      · rename_i p r f1 halloc
        simp at h
        exact Or.inr (Or.inr ⟨j, r, f1, hop, hslot, halloc, h.symm⟩)

theorem aux_bit_ne (f : List Bool) (r1 r2 : Nat) (h1 : f.getD r1 false = false)
    (h2 : f.getD r2 false = true) : r1 ≠ r2 := by
  intro he
  rw [he, h2] at h1
  exact Bool.noConfusion h1

theorem stepR_preserve (inst : TInst) (k : Nat) (s sR : AllocSt)
    (h : stepR inst k s = some sR) (x : Nat) (v : Loc)
    (hx : s.slot.getD x none = some v) : sR.slot.getD x none = some v := by
  rcases stepR_cases inst k s sR h with ⟨_, rfl⟩ | ⟨_, r, f1, hslot, _, rfl⟩ |
    ⟨_, r, hslot, rfl⟩
  · exact hx
  · by_cases hxk : x = k
    · rw [hxk, hslot] at hx
      exact Option.noConfusion hx
    · show (s.slot.set k (some (.rg r))).getD x none = some v
      rw [aux_getD_set_ne s.slot k x _ none fun he => hxk he.symm]
      exact hx
  · exact hx

theorem stepR_other (inst : TInst) (k : Nat) (s sR : AllocSt)
    (h : stepR inst k s = some sR) (x : Nat) (hx : x ≠ k) :
    sR.slot.getD x none = s.slot.getD x none := by
  rcases stepR_cases inst k s sR h with ⟨_, rfl⟩ | ⟨_, r, f1, hslot, _, rfl⟩ |
    ⟨_, r, hslot, rfl⟩
  · rfl
  · exact aux_getD_set_ne s.slot k x _ none fun he => hx he.symm
  · rfl

theorem stepR_len (inst : TInst) (k : Nat) (s sR : AllocSt)
    (h : stepR inst k s = some sR) :
    sR.slot.length = s.slot.length ∧ sR.free.length = s.free.length := by
  rcases stepR_cases inst k s sR h with ⟨_, rfl⟩ | ⟨_, r, f1, hslot, halloc, rfl⟩ |
    ⟨_, r, hslot, rfl⟩
  · exact ⟨rfl, rfl⟩
  · obtain ⟨_, _, rfl⟩ := aux_allocReg_spec s.free r f1 halloc
    constructor
    · exact List.length_set s.slot k _
    · show ((s.free.set r false).set r true).length = s.free.length
      rw [List.length_set, List.length_set]
  · exact ⟨rfl, List.length_set s.free r _⟩

theorem stepA_preserve (inst : TInst) (k : Nat) (s sA : AllocSt)
    (h : stepA inst k s = some sA) (x : Nat) (v : Loc)
    (hx : s.slot.getD x none = some v) : sA.slot.getD x none = some v := by
  rcases stepA_cases inst k s sA h with ⟨_, rfl⟩ | ⟨j, w, _, _, rfl⟩ |
    ⟨j, r, f1, _, hslot, _, _, rfl⟩ | ⟨j, r, f1, r2, f2, _, hslot, _, _, _, _, rfl⟩
  · exact hx
  · exact hx
  · by_cases hxj : x = j
    · rw [hxj, hslot] at hx
      exact Option.noConfusion hx
    · show (s.slot.set j (some (.rg r))).getD x none = some v
      rw [aux_getD_set_ne s.slot j x _ none fun he => hxj he.symm]
      exact hx
  · by_cases hxj : x = j
    · rw [hxj, hslot] at hx
      exact Option.noConfusion hx
    · show (s.slot.set j (some (.rg r2))).getD x none = some v
      rw [aux_getD_set_ne s.slot j x _ none fun he => hxj he.symm]
      exact hx

theorem stepA_other (inst : TInst) (k : Nat) (s sA : AllocSt)
    (h : stepA inst k s = some sA) (x : Nat)
    (hx : ∀ j, inst.aOp = some j → x ≠ j) :
    sA.slot.getD x none = s.slot.getD x none := by
  rcases stepA_cases inst k s sA h with ⟨_, rfl⟩ | ⟨j, w, _, _, rfl⟩ |
    ⟨j, r, f1, hop, hslot, _, _, rfl⟩ | ⟨j, r, f1, r2, f2, hop, hslot, _, _, _, _, rfl⟩
  · rfl
  · rfl
  · exact aux_getD_set_ne s.slot j x _ none fun he => hx j hop he.symm
  · exact aux_getD_set_ne s.slot j x _ none fun he => hx j hop he.symm

theorem stepA_len (inst : TInst) (k : Nat) (s sA : AllocSt)
    (h : stepA inst k s = some sA) :
    sA.slot.length = s.slot.length ∧ sA.free.length = s.free.length := by
  rcases stepA_cases inst k s sA h with ⟨_, rfl⟩ | ⟨j, w, _, _, rfl⟩ |
    ⟨j, r, f1, _, _, halloc, _, rfl⟩ | ⟨j, r, f1, r2, f2, _, _, halloc, _, _, halloc2, rfl⟩
  · exact ⟨rfl, rfl⟩
  · exact ⟨rfl, rfl⟩
  · obtain ⟨_, _, rfl⟩ := aux_allocReg_spec s.free r f1 halloc
    exact ⟨List.length_set s.slot j _, List.length_set s.free r _⟩
  · obtain ⟨_, _, rfl⟩ := aux_allocReg_spec s.free r f1 halloc
    obtain ⟨_, _, rfl⟩ := aux_allocReg_spec _ r2 f2 halloc2
    constructor
    · exact List.length_set s.slot j _
    · show (((s.free.set r false).set r2 false).set r true).length = s.free.length
      rw [List.length_set, List.length_set, List.length_set]

theorem stepB_preserve (inst : TInst) (s sB : AllocSt)
    (h : stepB inst s = some sB) (x : Nat) (v : Loc)
    (hx : s.slot.getD x none = some v) : sB.slot.getD x none = some v := by
  rcases stepB_cases inst s sB h with ⟨_, rfl⟩ | ⟨j, w, _, _, rfl⟩ |
    ⟨j, r, f1, _, hslot, _, rfl⟩
  · exact hx
  · exact hx
  · by_cases hxj : x = j
    · rw [hxj, hslot] at hx
      exact Option.noConfusion hx
    · show (s.slot.set j (some (.rg r))).getD x none = some v
      rw [aux_getD_set_ne s.slot j x _ none fun he => hxj he.symm]
      exact hx

theorem stepB_other (inst : TInst) (s sB : AllocSt)
    (h : stepB inst s = some sB) (x : Nat)
    (hx : ∀ j, inst.bOp = some j → x ≠ j) :
    sB.slot.getD x none = s.slot.getD x none := by
  rcases stepB_cases inst s sB h with ⟨_, rfl⟩ | ⟨j, w, _, _, rfl⟩ |
    ⟨j, r, f1, hop, hslot, _, rfl⟩
  · rfl
  · rfl
  · exact aux_getD_set_ne s.slot j x _ none fun he => hx j hop he.symm

theorem stepB_len (inst : TInst) (s sB : AllocSt)
    (h : stepB inst s = some sB) :
    sB.slot.length = s.slot.length ∧ sB.free.length = s.free.length := by
  rcases stepB_cases inst s sB h with ⟨_, rfl⟩ | ⟨j, w, _, _, rfl⟩ |
    ⟨j, r, f1, _, _, halloc, rfl⟩
  · exact ⟨rfl, rfl⟩
  · exact ⟨rfl, rfl⟩
  · obtain ⟨_, _, rfl⟩ := aux_allocReg_spec s.free r f1 halloc
    exact ⟨List.length_set s.slot j _, List.length_set s.free r _⟩

theorem stepR_bundle (inst : TInst) (k : Nat) (s sR : AllocSt)
    (hk : k < s.slot.length)
    (hA : InvA s (k + 1)) (hB : InvB s (k + 1))
    (h : stepR inst k s = some sR) :
    InvA sR k ∧ InvB sR (k + 1) := by
  rcases stepR_cases inst k s sR h with ⟨_, rfl⟩ | ⟨_, r, f1, hslot, halloc, rfl⟩ |
    ⟨_, r, hslot, rfl⟩
  · exact ⟨fun j rj hj hreg => hA j rj (by omega) hreg, hB⟩
  · obtain ⟨hrlt, hrtrue, rfl⟩ := aux_allocReg_spec s.free r f1 halloc
    have hfree : freeReg (s.free.set r false) r = s.free := by
      show (s.free.set r false).set r true = s.free
      rw [List.set_set, ← hrtrue]
      exact aux_set_getD_self s.free r false
    constructor
    · intro j rj hj hreg
      have hreg' : s.slot.getD j none = some (.rg rj) := by
        have h0 : (s.slot.set k (some (.rg r))).getD j none = some (.rg rj) := hreg
        rwa [aux_getD_set_ne s.slot k j _ none (by omega)] at h0
      obtain ⟨hl, hb⟩ := hA j rj (by omega) hreg'
      constructor
      · show rj < (freeReg (s.free.set r false) r).length
        rw [hfree]
        exact hl
      · show (freeReg (s.free.set r false) r).getD rj false = false
        rw [hfree]
        exact hb
    · intro j1 j2 r1 r2 hj1 hj2 hne h1 h2
      by_cases hj1k : j1 = k
      · subst hj1k
        have h1' : (s.slot.set j1 (some (.rg r))).getD j1 none = some (.rg r1) := h1
        rw [aux_getD_set_self s.slot j1 _ none hk] at h1'
        have hr1 : r1 = r := by
          have := Option.some.inj h1'
          cases this
          rfl
        have h2' : s.slot.getD j2 none = some (.rg r2) := by
          have h0 : (s.slot.set j1 (some (.rg r))).getD j2 none = some (.rg r2) := h2
          rwa [aux_getD_set_ne s.slot j1 j2 _ none hne] at h0
        obtain ⟨_, hb2⟩ := hA j2 r2 hj2 h2'
        rw [hr1]
        exact (aux_bit_ne s.free r2 r hb2 hrtrue).symm
      · by_cases hj2k : j2 = k
        · subst hj2k
          have h2' : (s.slot.set j2 (some (.rg r))).getD j2 none = some (.rg r2) := h2
          rw [aux_getD_set_self s.slot j2 _ none hk] at h2'
          have hr2 : r2 = r := by
            have := Option.some.inj h2'
            cases this
            rfl
          have h1' : s.slot.getD j1 none = some (.rg r1) := by
            have h0 : (s.slot.set j2 (some (.rg r))).getD j1 none = some (.rg r1) := h1
            rwa [aux_getD_set_ne s.slot j2 j1 _ none fun he => hj1k he.symm] at h0
          obtain ⟨_, hb1⟩ := hA j1 r1 hj1 h1'
          rw [hr2]
          exact aux_bit_ne s.free r1 r hb1 hrtrue
        · have h1' : s.slot.getD j1 none = some (.rg r1) := by
            have h0 : (s.slot.set k (some (.rg r))).getD j1 none = some (.rg r1) := h1
            rwa [aux_getD_set_ne s.slot k j1 _ none fun he => hj1k he.symm] at h0
          have h2' : s.slot.getD j2 none = some (.rg r2) := by
            have h0 : (s.slot.set k (some (.rg r))).getD j2 none = some (.rg r2) := h2
            rwa [aux_getD_set_ne s.slot k j2 _ none fun he => hj2k he.symm] at h0
          exact hB j1 j2 r1 r2 hj1 hj2 hne h1' h2'
  · constructor
    · intro j rj hj hreg
      have hreg' : s.slot.getD j none = some (.rg rj) := hreg
      obtain ⟨hl, hb⟩ := hA j rj (by omega) hreg'
      have hrne : rj ≠ r :=
        hB j k rj r (by omega) (by omega) (by omega) hreg' hslot
      constructor
      · show rj < (s.free.set r true).length
        rw [List.length_set]
        exact hl
      · show (s.free.set r true).getD rj false = false
        rw [aux_getD_set_ne s.free r rj _ false fun he => hrne he.symm]
        exact hb
    · exact hB

theorem stepA_bundle (inst : TInst) (k : Nat) (sR sA : AllocSt)
    (hkj : ∀ j, inst.aOp = some j → j < k)
    (hklen : k ≤ sR.slot.length)
    (hA : InvA sR k) (hB : InvB sR (k + 1))
    (h : stepA inst k sR = some sA) :
    InvA sA k ∧ InvB sA k ∧
    (∀ j, inst.aOp = some j → sA.slot.getD j none ≠ none) ∧
    (is_widening_cast inst.bc = true →
      ∀ j, inst.aOp = some j →
      ∀ ri rj, sA.slot.getD k none = some (.rg ri) →
        sA.slot.getD j none = some (.rg rj) → ri ≠ rj) := by
  have hBk : InvB sR k := fun j1 j2 r1 r2 h1 h2 hne ha hb =>
    hB j1 j2 r1 r2 (by omega) (by omega) hne ha hb
  rcases stepA_cases inst k sR sA h with ⟨hop, rfl⟩ | ⟨j0, v, hop, hslot, rfl⟩ |
    ⟨j0, r, f1, hop, hslot, halloc, hncol, rfl⟩ |
    ⟨j0, r, f1, r2, f2, hop, hslot, halloc, hw, hcol, halloc2, rfl⟩
  · refine ⟨hA, hBk, ?_, ?_⟩
    · intro j hj
      rw [hop] at hj
      exact Option.noConfusion hj
    · intro _ j hj
      rw [hop] at hj
      exact Option.noConfusion hj
  · refine ⟨hA, hBk, ?_, ?_⟩
    · intro j hj
      rw [hop] at hj
      cases Option.some.inj hj
      rw [hslot]
      exact fun he => Option.noConfusion he
    · intro _ j hj ri rj hri hrj
      rw [hop] at hj
      cases Option.some.inj hj
      have hj0k : j0 < k := hkj j0 hop
      exact (hB j0 k rj ri (by omega) (by omega) (by omega) hrj hri).symm
  · obtain ⟨hrlt, hrtrue, rfl⟩ := aux_allocReg_spec sR.free r f1 halloc
    have hj0k : j0 < k := hkj j0 hop
    have hj0len : j0 < sR.slot.length := by omega
    refine ⟨?_, ?_, ?_, ?_⟩
    · intro j' rj' hj' hreg
      by_cases hjj : j' = j0
      · subst hjj
        have h0 : (sR.slot.set j' (some (.rg r))).getD j' none = some (.rg rj') := hreg
        rw [aux_getD_set_self sR.slot j' _ none hj0len] at h0
        have hr' : rj' = r := by
          have := Option.some.inj h0
          cases this
          rfl
        subst hr'
        constructor
        · show rj' < (sR.free.set rj' false).length
          rw [List.length_set]
          exact hrlt
        · show (sR.free.set rj' false).getD rj' false = false
          exact aux_getD_set_self sR.free rj' false false hrlt
      · have h0 : sR.slot.getD j' none = some (.rg rj') := by
          have h1 : (sR.slot.set j0 (some (.rg r))).getD j' none = some (.rg rj') := hreg
          rwa [aux_getD_set_ne sR.slot j0 j' _ none fun he => hjj he.symm] at h1
        obtain ⟨hl, hb⟩ := hA j' rj' hj' h0
        have hrne : rj' ≠ r := aux_bit_ne sR.free rj' r hb hrtrue
        constructor
        · show rj' < (sR.free.set r false).length
          rw [List.length_set]
          exact hl
        · show (sR.free.set r false).getD rj' false = false
          rw [aux_getD_set_ne sR.free r rj' _ false fun he => hrne he.symm]
          exact hb
    · intro j1 j2 r1 r2 hj1 hj2 hne h1 h2
      by_cases hj1j : j1 = j0
      · subst hj1j
        have h1' : (sR.slot.set j1 (some (.rg r))).getD j1 none = some (.rg r1) := h1
        rw [aux_getD_set_self sR.slot j1 _ none hj0len] at h1'
        have hr1 : r1 = r := by
          have := Option.some.inj h1'
          cases this
          rfl
        have h2' : sR.slot.getD j2 none = some (.rg r2) := by
          have h0 : (sR.slot.set j1 (some (.rg r))).getD j2 none = some (.rg r2) := h2
          rwa [aux_getD_set_ne sR.slot j1 j2 _ none hne] at h0
        obtain ⟨_, hb2⟩ := hA j2 r2 hj2 h2'
        rw [hr1]
        exact (aux_bit_ne sR.free r2 r hb2 hrtrue).symm
      · by_cases hj2j : j2 = j0
        · subst hj2j
          have h2' : (sR.slot.set j2 (some (.rg r))).getD j2 none = some (.rg r2) := h2
          rw [aux_getD_set_self sR.slot j2 _ none hj0len] at h2'
          have hr2 : r2 = r := by
            have := Option.some.inj h2'
            cases this
            rfl
          have h1' : sR.slot.getD j1 none = some (.rg r1) := by
            have h0 : (sR.slot.set j2 (some (.rg r))).getD j1 none = some (.rg r1) := h1
            rwa [aux_getD_set_ne sR.slot j2 j1 _ none fun he => hj1j he.symm] at h0
          obtain ⟨_, hb1⟩ := hA j1 r1 hj1 h1'
          rw [hr2]
          exact aux_bit_ne sR.free r1 r hb1 hrtrue
        · have h1' : sR.slot.getD j1 none = some (.rg r1) := by
            have h0 : (sR.slot.set j0 (some (.rg r))).getD j1 none = some (.rg r1) := h1
            rwa [aux_getD_set_ne sR.slot j0 j1 _ none fun he => hj1j he.symm] at h0
          have h2' : sR.slot.getD j2 none = some (.rg r2) := by
            have h0 : (sR.slot.set j0 (some (.rg r))).getD j2 none = some (.rg r2) := h2
            rwa [aux_getD_set_ne sR.slot j0 j2 _ none fun he => hj2j he.symm] at h0
          exact hBk j1 j2 r1 r2 hj1 hj2 hne h1' h2'
    · intro j hj
      rw [hop] at hj
      cases Option.some.inj hj
      show (sR.slot.set j0 (some (.rg r))).getD j0 none ≠ none
      rw [aux_getD_set_self sR.slot j0 _ none hj0len]
      exact fun he => Option.noConfusion he
    · intro hwc j hj ri rj hri hrj
      rw [hop] at hj
      cases Option.some.inj hj
      have hri' : sR.slot.getD k none = some (.rg ri) := by
        have h0 : (sR.slot.set j0 (some (.rg r))).getD k none = some (.rg ri) := hri
        rwa [aux_getD_set_ne sR.slot j0 k _ none (by omega)] at h0
      have hrj' : rj = r := by
        have h0 : (sR.slot.set j0 (some (.rg r))).getD j0 none = some (.rg rj) := hrj
        rw [aux_getD_set_self sR.slot j0 _ none hj0len] at h0
        have := Option.some.inj h0
        cases this
        rfl
      subst hrj'
      intro he
      exact hncol ⟨hwc, by rw [← he]; exact hri'⟩
  · obtain ⟨hrlt, hrtrue, rfl⟩ := aux_allocReg_spec sR.free r f1 halloc
    obtain ⟨hr2lt, hr2true, rfl⟩ := aux_allocReg_spec _ r2 f2 halloc2
    have hj0k : j0 < k := hkj j0 hop
    have hj0len : j0 < sR.slot.length := by omega
    have hrr2 : r ≠ r2 :=
      aux_bit_ne (sR.free.set r false) r r2
        (aux_getD_set_self sR.free r false false hrlt) hr2true
    have hfr2 : ∀ x, x ≠ r → x ≠ r2 →
        (freeReg ((sR.free.set r false).set r2 false) r).getD x false =
          sR.free.getD x false := by
      intro x hx1 hx2
      show (((sR.free.set r false).set r2 false).set r true).getD x false = _
      rw [aux_getD_set_ne _ r x _ false fun he => hx1 he.symm,
          aux_getD_set_ne _ r2 x _ false fun he => hx2 he.symm,
          aux_getD_set_ne _ r x _ false fun he => hx1 he.symm]
    refine ⟨?_, ?_, ?_, ?_⟩
    · intro j' rj' hj' hreg
      by_cases hjj : j' = j0
      · subst hjj
        have h0 : (sR.slot.set j' (some (.rg r2))).getD j' none = some (.rg rj') := hreg
        rw [aux_getD_set_self sR.slot j' _ none hj0len] at h0
        have hr' : rj' = r2 := by
          have := Option.some.inj h0
          cases this
          rfl
        subst hr'
        constructor
        · show rj' < (((sR.free.set r false).set rj' false).set r true).length
          rw [List.length_set, List.length_set, List.length_set]
          rw [List.length_set] at hr2lt
          exact hr2lt
        · show (((sR.free.set r false).set rj' false).set r true).getD rj' false = false
          rw [aux_getD_set_ne _ r rj' _ false hrr2]
          have hlt2 : rj' < (sR.free.set r false).length := hr2lt
          exact aux_getD_set_self _ rj' false false hlt2
      · have h0 : sR.slot.getD j' none = some (.rg rj') := by
          have h1 : (sR.slot.set j0 (some (.rg r2))).getD j' none = some (.rg rj') := hreg
          rwa [aux_getD_set_ne sR.slot j0 j' _ none fun he => hjj he.symm] at h1
        obtain ⟨hl, hb⟩ := hA j' rj' hj' h0
        have hne1 : rj' ≠ r := aux_bit_ne sR.free rj' r hb hrtrue
        have hbf1 : (sR.free.set r false).getD rj' false = false := by
          rw [aux_getD_set_ne sR.free r rj' _ false fun he => hne1 he.symm]
          exact hb
        have hne2 : rj' ≠ r2 := aux_bit_ne (sR.free.set r false) rj' r2 hbf1 hr2true
        constructor
        · show rj' < (((sR.free.set r false).set r2 false).set r true).length
          rw [List.length_set, List.length_set, List.length_set]
          exact hl
        · rw [hfr2 rj' hne1 hne2]
          exact hb
    · intro j1 j2 r1 r2' hj1 hj2 hne h1 h2
      by_cases hj1j : j1 = j0
      · subst hj1j
        have h1' : (sR.slot.set j1 (some (.rg r2))).getD j1 none = some (.rg r1) := h1
        rw [aux_getD_set_self sR.slot j1 _ none hj0len] at h1'
        have hr1 : r1 = r2 := by
          have := Option.some.inj h1'
          cases this
          rfl
        have h2' : sR.slot.getD j2 none = some (.rg r2') := by
          have h0 : (sR.slot.set j1 (some (.rg r2))).getD j2 none = some (.rg r2') := h2
          rwa [aux_getD_set_ne sR.slot j1 j2 _ none hne] at h0
        obtain ⟨_, hb2⟩ := hA j2 r2' hj2 h2'
        have hne1 : r2' ≠ r := aux_bit_ne sR.free r2' r hb2 hrtrue
        have hbf1 : (sR.free.set r false).getD r2' false = false := by
          rw [aux_getD_set_ne sR.free r r2' _ false fun he => hne1 he.symm]
          exact hb2
        rw [hr1]
        exact (aux_bit_ne (sR.free.set r false) r2' r2 hbf1 hr2true).symm
      · by_cases hj2j : j2 = j0
        · subst hj2j
          have h2' : (sR.slot.set j2 (some (.rg r2))).getD j2 none = some (.rg r2') := h2
          rw [aux_getD_set_self sR.slot j2 _ none hj0len] at h2'
          have hr2' : r2' = r2 := by
            have := Option.some.inj h2'
            cases this
            rfl
          have h1' : sR.slot.getD j1 none = some (.rg r1) := by
            have h0 : (sR.slot.set j2 (some (.rg r2))).getD j1 none = some (.rg r1) := h1
            rwa [aux_getD_set_ne sR.slot j2 j1 _ none fun he => hj1j he.symm] at h0
          obtain ⟨_, hb1⟩ := hA j1 r1 hj1 h1'
          have hne1 : r1 ≠ r := aux_bit_ne sR.free r1 r hb1 hrtrue
          have hbf1 : (sR.free.set r false).getD r1 false = false := by
            rw [aux_getD_set_ne sR.free r r1 _ false fun he => hne1 he.symm]
            exact hb1
          rw [hr2']
          exact aux_bit_ne (sR.free.set r false) r1 r2 hbf1 hr2true
        · have h1' : sR.slot.getD j1 none = some (.rg r1) := by
            have h0 : (sR.slot.set j0 (some (.rg r2))).getD j1 none = some (.rg r1) := h1
            rwa [aux_getD_set_ne sR.slot j0 j1 _ none fun he => hj1j he.symm] at h0
          have h2' : sR.slot.getD j2 none = some (.rg r2') := by
            have h0 : (sR.slot.set j0 (some (.rg r2))).getD j2 none = some (.rg r2') := h2
            rwa [aux_getD_set_ne sR.slot j0 j2 _ none fun he => hj2j he.symm] at h0
          exact hBk j1 j2 r1 r2' hj1 hj2 hne h1' h2'
    · intro j hj
      rw [hop] at hj
      cases Option.some.inj hj
      show (sR.slot.set j0 (some (.rg r2))).getD j0 none ≠ none
      rw [aux_getD_set_self sR.slot j0 _ none hj0len]
      exact fun he => Option.noConfusion he
    · intro hwc j hj ri rj hri hrj
      rw [hop] at hj
      cases Option.some.inj hj
      have hri' : sR.slot.getD k none = some (.rg ri) := by
        have h0 : (sR.slot.set j0 (some (.rg r2))).getD k none = some (.rg ri) := hri
        rwa [aux_getD_set_ne sR.slot j0 k _ none (by omega)] at h0
      have hriR : ri = r := by
        rw [hcol] at hri'
        have := Option.some.inj hri'
        cases this
        rfl
      have hrj' : rj = r2 := by
        have h0 : (sR.slot.set j0 (some (.rg r2))).getD j0 none = some (.rg rj) := hrj
        rw [aux_getD_set_self sR.slot j0 _ none hj0len] at h0
        have := Option.some.inj h0
        cases this
        rfl
      rw [hriR, hrj']
      exact hrr2

theorem stepB_bundle (inst : TInst) (k : Nat) (sA s1 : AllocSt)
    (hkj : ∀ j, inst.bOp = some j → j < k)
    (hklen : k ≤ sA.slot.length)
    (hA : InvA sA k) (hB : InvB sA k)
    (h : stepB inst sA = some s1) :
    InvA s1 k ∧ InvB s1 k := by
  rcases stepB_cases inst sA s1 h with ⟨hop, rfl⟩ | ⟨j0, v, hop, hslot, rfl⟩ |
    ⟨j0, r, f1, hop, hslot, halloc, rfl⟩
  · exact ⟨hA, hB⟩
  · exact ⟨hA, hB⟩
  · obtain ⟨hrlt, hrtrue, rfl⟩ := aux_allocReg_spec sA.free r f1 halloc
    have hj0k : j0 < k := hkj j0 hop
    have hj0len : j0 < sA.slot.length := by omega
    constructor
    · intro j' rj' hj' hreg
      by_cases hjj : j' = j0
      · subst hjj
        have h0 : (sA.slot.set j' (some (.rg r))).getD j' none = some (.rg rj') := hreg
        rw [aux_getD_set_self sA.slot j' _ none hj0len] at h0
        have hr' : rj' = r := by
          have := Option.some.inj h0
          cases this
          rfl
        subst hr'
        constructor
        · show rj' < (sA.free.set rj' false).length
          rw [List.length_set]
          exact hrlt
        · show (sA.free.set rj' false).getD rj' false = false
          exact aux_getD_set_self sA.free rj' false false hrlt
      · have h0 : sA.slot.getD j' none = some (.rg rj') := by
          have h1 : (sA.slot.set j0 (some (.rg r))).getD j' none = some (.rg rj') := hreg
          rwa [aux_getD_set_ne sA.slot j0 j' _ none fun he => hjj he.symm] at h1
        obtain ⟨hl, hb⟩ := hA j' rj' hj' h0
        have hrne : rj' ≠ r := aux_bit_ne sA.free rj' r hb hrtrue
        constructor
        · show rj' < (sA.free.set r false).length
          rw [List.length_set]
          exact hl
        · show (sA.free.set r false).getD rj' false = false
          rw [aux_getD_set_ne sA.free r rj' _ false fun he => hrne he.symm]
          exact hb
    · intro j1 j2 r1 r2 hj1 hj2 hne h1 h2
      by_cases hj1j : j1 = j0
      · subst hj1j
        have h1' : (sA.slot.set j1 (some (.rg r))).getD j1 none = some (.rg r1) := h1
        rw [aux_getD_set_self sA.slot j1 _ none hj0len] at h1'
        have hr1 : r1 = r := by
          have := Option.some.inj h1'
          cases this
          rfl
        have h2' : sA.slot.getD j2 none = some (.rg r2) := by
          have h0 : (sA.slot.set j1 (some (.rg r))).getD j2 none = some (.rg r2) := h2
          rwa [aux_getD_set_ne sA.slot j1 j2 _ none hne] at h0
        obtain ⟨_, hb2⟩ := hA j2 r2 hj2 h2'
        rw [hr1]
        exact (aux_bit_ne sA.free r2 r hb2 hrtrue).symm
      · by_cases hj2j : j2 = j0
        · subst hj2j
          have h2' : (sA.slot.set j2 (some (.rg r))).getD j2 none = some (.rg r2) := h2
          rw [aux_getD_set_self sA.slot j2 _ none hj0len] at h2'
          have hr2 : r2 = r := by
            have := Option.some.inj h2'
            cases this
            rfl
          have h1' : sA.slot.getD j1 none = some (.rg r1) := by
            have h0 : (sA.slot.set j2 (some (.rg r))).getD j1 none = some (.rg r1) := h1
            rwa [aux_getD_set_ne sA.slot j2 j1 _ none fun he => hj1j he.symm] at h0
          obtain ⟨_, hb1⟩ := hA j1 r1 hj1 h1'
          rw [hr2]
          exact aux_bit_ne sA.free r1 r hb1 hrtrue
        · have h1' : sA.slot.getD j1 none = some (.rg r1) := by
            have h0 : (sA.slot.set j0 (some (.rg r))).getD j1 none = some (.rg r1) := h1
            rwa [aux_getD_set_ne sA.slot j0 j1 _ none fun he => hj1j he.symm] at h0
          have h2' : sA.slot.getD j2 none = some (.rg r2) := by
            have h0 : (sA.slot.set j0 (some (.rg r))).getD j2 none = some (.rg r2) := h2
            rwa [aux_getD_set_ne sA.slot j0 j2 _ none fun he => hj2j he.symm] at h0
          exact hB j1 j2 r1 r2 hj1 hj2 hne h1' h2'

theorem stepInst_master (insts : List TInst) (hwf : wellFormedPass1 insts = true)
    (k : Nat) (s s1 : AllocSt)
    (hlen : s.slot.length = insts.length)
    (hA : InvA s (k + 1)) (hB : InvB s (k + 1)) (hD : DoneP insts s (k + 1))
    (hstep : stepInst insts k s = some s1) :
    s1.slot.length = insts.length ∧ InvA s1 k ∧ InvB s1 k ∧ DoneP insts s1 k := by
  unfold stepInst at hstep
  rcases hget : insts.get? k with _ | inst
  · rw [hget] at hstep
    exact absurd hstep (by simp)
  · rw [hget] at hstep
    have hstep2 : ((stepR inst k s).bind (stepA inst k)).bind (stepB inst) =
        some s1 := hstep
    clear hstep
    rcases hR : stepR inst k s with _ | sR
    · rw [hR] at hstep2
      simp at hstep2
    · rw [hR] at hstep2
      simp only [Option.some_bind] at hstep2
      rcases hSA : stepA inst k sR with _ | sA
      · rw [hSA] at hstep2
        simp at hstep2
      · rw [hSA] at hstep2
        simp only [Option.some_bind] at hstep2
        have hstep : stepB inst sA = some s1 := hstep2
        obtain ⟨hwa, hwb, _⟩ := aux_wf_extract insts hwf k inst hget
        have hklt : k < insts.length := aux_get?_lt insts k inst hget
        have hkslot : k < s.slot.length := by omega
        obtain ⟨hRA, hRB⟩ := stepR_bundle inst k s sR hkslot hA hB hR
        obtain ⟨hRl, hRf⟩ := stepR_len inst k s sR hR
        obtain ⟨hAA, hAB, hAassigned, hAanti⟩ :=
          stepA_bundle inst k sR sA hwa (by omega) hRA hRB hSA
        obtain ⟨hAl, hAf⟩ := stepA_len inst k sR sA hSA
        obtain ⟨hBA, hBB⟩ :=
          stepB_bundle inst k sA s1 hwb (by omega) hAA hAB hstep
        obtain ⟨hBl, hBf⟩ := stepB_len inst sA s1 hstep
        refine ⟨by omega, hBA, hBB, ?_⟩
        intro i inst' j' hik hgeti hop'
        by_cases hik' : i = k
        · subst hik'
          have hinst : inst' = inst := by
            rw [hget] at hgeti
            exact (Option.some.inj hgeti).symm
          rw [hinst] at hop'
          constructor
          · rcases hv : sA.slot.getD j' none with _ | v
            · exact absurd hv (hAassigned j' hop')
            · rw [stepB_preserve inst sA s1 hstep j' v hv]
              exact fun he => Option.noConfusion he
          · rw [hinst]
            intro hw ri rj h_i h_j
            have h_i2 : s1.slot.getD i none = some (.rg ri) := h_i
            have h_j2 : s1.slot.getD j' none = some (.rg rj) := h_j
            have hknotb : ∀ jb, inst.bOp = some jb → i ≠ jb := fun jb hjb => by
              have := hwb jb hjb
              omega
            have h_iA : sA.slot.getD i none = some (.rg ri) := by
              rw [← stepB_other inst sA s1 hstep i hknotb]
              exact h_i2
            have h_jA : sA.slot.getD j' none = some (.rg rj) := by
              rcases hv : sA.slot.getD j' none with _ | v
              · exact absurd hv (hAassigned j' hop')
              · have hpres := stepB_preserve inst sA s1 hstep j' v hv
                rw [hpres] at h_j2
                cases Option.some.inj h_j2
                rfl
            exact hAanti hw j' hop' ri rj h_iA h_jA
        · have hik2 : k + 1 ≤ i := by omega
          obtain ⟨hne_s, hanti_s⟩ := hD i inst' j' hik2 hgeti hop'
          constructor
          · rcases hv : s.slot.getD j' none with _ | v
            · exact absurd hv hne_s
            · have h1 := stepR_preserve inst k s sR hR j' v hv
              have h2 := stepA_preserve inst k sR sA hSA j' v h1
              have h3 := stepB_preserve inst sA s1 hstep j' v h2
              rw [h3]
              exact fun he => Option.noConfusion he
          · intro hw ri rj h_i h_j
            have h_i2 : s1.slot.getD i none = some (.rg ri) := h_i
            have h_j2 : s1.slot.getD j' none = some (.rg rj) := h_j
            have hinoa : ∀ j, inst.aOp = some j → i ≠ j := fun j hj => by
              have := hwa j hj
              omega
            have hinob : ∀ j, inst.bOp = some j → i ≠ j := fun j hj => by
              have := hwb j hj
              omega
            have h_i0 : s.slot.getD i none = some (.rg ri) := by
              rw [← stepR_other inst k s sR hR i (by omega),
                  ← stepA_other inst k sR sA hSA i hinoa,
                  ← stepB_other inst sA s1 hstep i hinob]
              exact h_i2
            have h_j0 : s.slot.getD j' none = some (.rg rj) := by
              rcases hv : s.slot.getD j' none with _ | v
              · exact absurd hv hne_s
              · have h1 := stepR_preserve inst k s sR hR j' v hv
                have h2 := stepA_preserve inst k sR sA hSA j' v h1
                have h3 := stepB_preserve inst sA s1 hstep j' v h2
                rw [h3] at h_j2
                cases Option.some.inj h_j2
                rfl
            exact hanti_s hw ri rj h_i0 h_j0

theorem passGo_master (insts : List TInst) (hwf : wellFormedPass1 insts = true) :
    ∀ k s s', s.slot.length = insts.length →
      InvA s k → InvB s k → DoneP insts s k →
      passGo insts k s = some s' → DoneP insts s' 0 := by
  intro k
  induction k with
  | zero =>
      intro s s' _ _ _ hD hpass
      have hss : s = s' := by
        have : (some s : Option AllocSt) = some s' := hpass
        exact Option.some.inj this
      subst hss
      exact hD
  | succ k ih =>
      intro s s' hlen hA hB hD hpass
      unfold passGo at hpass
      rcases hstep : stepInst insts k s with _ | s1
      · rw [hstep] at hpass
        simp at hpass
      · rw [hstep] at hpass
        simp only [Option.some_bind] at hpass
        obtain ⟨hlen1, hA1, hB1, hD1⟩ :=
          stepInst_master insts hwf k s s1 hlen hA hB hD hstep
        exact ih s1 s' hlen1 hA1 hB1 hD1 hpass

/-- Claim C4.  After the register-allocation pass of TraceInterpret::compile
over well-formed pass-1 output (operand references precede their instruction
and no initial result pointer is a register), for every widening cast —
castl2i or castl2d, the only casts from a narrower to a wider element type —
whose operand is a register operand, the register finally assigned to the
operand differs from the register finally assigned to the result. -/
theorem widening_cast_anti_alias (insts : List TInst) (s : AllocSt)
    (hwf : wellFormedPass1 insts = true)
    (hrun : regAlloc insts = some s)
    (i : Nat) (inst : TInst) (hi : insts.get? i = some inst)
    (hw : is_widening_cast inst.bc = true)
    (j : Nat) (hj : inst.aOp = some j)
    (ri rj : Nat)
    (hri : s.slot.getD i none = some (.rg ri))
    (hrj : s.slot.getD j none = some (.rg rj)) :
    ri ≠ rj := by
  unfold regAlloc at hrun
  have hnorg : ∀ j' r', (insts.map (·.r0)).getD j' none ≠ some (.rg r') := by
    intro j' r' hreg
    rw [aux_getD_map insts (·.r0) j' none] at hreg
    rcases hg : insts.get? j' with _ | instj
    · rw [hg] at hreg
      exact Option.noConfusion hreg
    · rw [hg] at hreg
      simp only [Option.map_some'] at hreg
      exact (aux_wf_extract insts hwf j' instj hg).2.2 r' hreg
  have hA0 : InvA { free := List.replicate 32 true, slot := insts.map (·.r0) }
      insts.length := by
    intro j' r' _ hreg
    exact absurd hreg (hnorg j' r')
  have hB0 : InvB { free := List.replicate 32 true, slot := insts.map (·.r0) }
      insts.length := by
    intro j1 j2 r1 r2 _ _ _ h1 _
    exact absurd h1 (hnorg j1 r1)
  have hD0 : DoneP insts { free := List.replicate 32 true, slot := insts.map (·.r0) }
      insts.length := by
    intro i' inst' j' hge hget _
    have := aux_get?_lt insts i' inst' hget
    omega
  have hdone := passGo_master insts hwf insts.length
    { free := List.replicate 32 true, slot := insts.map (·.r0) } s
    (by simp) hA0 hB0 hD0 hrun
  exact (hdone i inst j (Nat.zero_le i) hi hj).2 hw ri rj hri hrj

/-- Witness for C4: a producer followed by a widening cast castl2d consuming
it.  The pass assigns register 0 to the cast result; the anti-aliasing rule
then forces register 1 (not the colliding register 0) onto the operand. -/
theorem widening_cast_anti_alias_witness :
    regAlloc w4insts = some w4final ∧ (0 : Nat) ≠ 1 :=
  ⟨by decide,
   widening_cast_anti_alias w4insts w4final (by decide) (by decide) 1
     { bc := .castl2d, hasR := true, aOp := some 0, bOp := none, r0 := none }
     (by decide) (by decide) 0 (by decide) 0 1 (by decide) (by decide)⟩

end Riposte
